import Mathlib

/-!
Verification of the partner hierarchy synchronization core of hexya-base
(src/partner.go) against its specification.

The embedding models the Partner model of partner.go: records are rows of a
list-backed store, Many2One links are optional ids, and the write/create
pipeline (Write extension, Create extension, FieldsSync,
CommercialSyncFromCompany, CommercialSyncToChildren, UpdateAddress,
OnchangeParent, HandleFirsrtContactCreation, AddressGet, DisplayAddress) is
translated function by function.  Recursion through the store is bounded by
explicit fuel; claims are stated under acyclicity of the parent relation, the
invariant the code enforces through CheckParent/CheckRecursion
(partner.go:335-341).
-/

set_option maxHeartbeats 1600000

namespace HexyaBase

/-- An entity record of the Partner model (partner.go:101-226).  Many2One
relations (Parent, State, Country) are optional ids.  Fields outside the
synchronization core (images, phone, email, website, ...) are omitted: the
spec scopes them out and no claim mentions them. -/
structure Partner where
  id : Nat
  parent : Option Nat := none
  isCompany : Bool := false
  ptype : String := "contact"
  active : Bool := true
  name : String := ""
  companyName : String := ""
  street : String := ""
  street2 : String := ""
  zip : String := ""
  city : String := ""
  state : Option Nat := none
  country : Option Nat := none
  vat : String := ""
  creditLimit : Int := 0
  deriving Repr, DecidableEq

/-- The record store: the rows of the Partner table. -/
abbrev DB := List Partner

/-- Browse a record by id (the store's get). -/
def findP (db : DB) (pid : Nat) : Option Partner :=
  List.find? (fun p => p.id == pid) db

/-- A value map passed to Write/Create (m.PartnerData): `some` marks a field
present in the map.  Parent is modeled as present-iff-nonempty, matching the
emptiness tests `vals.Parent().IsEmpty()` the code performs on it
(partner.go:506,596,650). -/
structure PartnerData where
  name : Option String := none
  parent : Option Nat := none
  ptype : Option String := none
  isCompany : Option Bool := none
  active : Option Bool := none
  companyName : Option String := none
  street : Option String := none
  street2 : Option String := none
  zip : Option String := none
  city : Option String := none
  state : Option (Option Nat) := none
  country : Option (Option Nat) := none
  vat : Option String := none
  creditLimit : Option Int := none
  deriving Repr, DecidableEq

/-- Apply a value map to one record (the framework's Super().Write on a row). -/
def applyData (p : Partner) (v : PartnerData) : Partner :=
  { p with
    name := v.name.getD p.name
    parent := match v.parent with | none => p.parent | some q => some q
    ptype := v.ptype.getD p.ptype
    isCompany := v.isCompany.getD p.isCompany
    active := v.active.getD p.active
    companyName := v.companyName.getD p.companyName
    street := v.street.getD p.street
    street2 := v.street2.getD p.street2
    zip := v.zip.getD p.zip
    city := v.city.getD p.city
    state := v.state.getD p.state
    country := v.country.getD p.country
    vat := v.vat.getD p.vat
    creditLimit := v.creditLimit.getD p.creditLimit }

/-- Apply a value map to every record of a set of ids (Super().Write on a
record set). -/
def writeIds (db : DB) (ids : List Nat) (v : PartnerData) : DB :=
  List.map (fun p => if ids.contains p.id then applyData p v else p) db

/-- rs.Children(): ids of the active records whose Parent is this record
(One2Many with Filter Active=true, partner.go:110-111). -/
def childrenOf (db : DB) (pid : Nat) : List Nat :=
  (List.filter (fun p => p.active && p.parent == some pid) db).map (fun p => p.id)

/-- The record reads used throughout; a missing record reads as the zero
value, like an empty RecordSet. -/
def parentOf (db : DB) (pid : Nat) : Option Nat :=
  (findP db pid).bind (fun p => p.parent)

def pIsCompany (db : DB) (pid : Nat) : Bool :=
  ((findP db pid).map (fun p => p.isCompany)).getD false

def ptypeOf (db : DB) (pid : Nat) : String :=
  ((findP db pid).map (fun p => p.ptype)).getD ""

def vatOf (db : DB) (pid : Nat) : String :=
  ((findP db pid).map (fun p => p.vat)).getD ""

def creditOf (db : DB) (pid : Nat) : Int :=
  ((findP db pid).map (fun p => p.creditLimit)).getD 0

def nameOf (db : DB) (pid : Nat) : String :=
  ((findP db pid).map (fun p => p.name)).getD ""

def companyNameOf (db : DB) (pid : Nat) : String :=
  ((findP db pid).map (fun p => p.companyName)).getD ""

/-- The six address fields of a record as a tuple
(AddressFields, partner.go:433-441). -/
def addrOf (db : DB) (pid : Nat) :
    String × String × String × String × Option Nat × Option Nat :=
  match findP db pid with
  | none => ("", "", "", "", none, none)
  | some p => (p.street, p.street2, p.zip, p.city, p.state, p.country)

/-- ComputeCommercialPartner (partner.go:272-281): the record itself when it
is a company or has no parent, otherwise the parent's commercial partner.
The stored compute is kept consistent by the framework through its declared
dependencies (partner.go:208-210); reads of CommercialPartner are embedded as
this computation.  `fuel` bounds the parent chain. -/
def resolveCP (db : DB) : Nat → Nat → Nat
  | 0, pid => pid
  | fuel + 1, pid =>
    match findP db pid with
    | none => pid
    | some p =>
      if p.isCompany then pid
      else
        match p.parent with
        | none => pid
        | some par => resolveCP db fuel par

/-- Commercial partner with fuel sufficient for any acyclic store. -/
def cpOf (db : DB) (pid : Nat) : Nat :=
  resolveCP db (db.length + 1) pid

/-- The parent chain from `pid` reaches a record with no parent within `fuel`
steps (CheckRecursion's success, partner.go:335-341). -/
def chainTerm (db : DB) : Nat → Nat → Bool
  | 0, _ => false
  | fuel + 1, pid =>
    match findP db pid with
    | none => true
    | some p =>
      match p.parent with
      | none => true
      | some par => chainTerm db fuel par

/-- Acyclicity of the parent relation: the invariant CheckParent enforces on
every parent assignment. -/
def AcyclicB (db : DB) : Bool :=
  db.all (fun p => chainTerm db (db.length + 1) p.id)

def Acyclic (db : DB) : Prop := AcyclicB db = true

/-- Referential integrity: every Parent link points at an existing record. -/
def WfB (db : DB) : Bool :=
  db.all (fun p => p.parent.all (fun q => (findP db q).isSome))

def Wf (db : DB) : Prop := WfB db = true

/-- Ids are unique, as for any table's primary key. -/
def NodupIds (db : DB) : Prop := (db.map Partner.id).Nodup

instance (db : DB) : Decidable (Acyclic db) :=
  inferInstanceAs (Decidable (AcyclicB db = true))

instance (db : DB) : Decidable (Wf db) :=
  inferInstanceAs (Decidable (WfB db = true))

instance (db : DB) : Decidable (NodupIds db) :=
  inferInstanceAs (Decidable (List.Nodup _))

/-! ### The Field Synchronizer -/

/-- typesutils.IsZero over the six address fields of a record
(tested by OnchangeParent partner.go:358-364 and
HandleFirsrtContactCreation partner.go:559-567). -/
def hasAnyAddress (p : Partner) : Bool :=
  (p.street != "") || (p.street2 != "") || (p.zip != "") || (p.city != "") ||
    p.state.isSome || p.country.isSome

/-- UpdateFieldValues over AddressFields (partner.go:415-431,433-441): a value
map holding all six address fields of the record, empty values included. -/
def addressData (p : Partner) : PartnerData :=
  { street := some p.street, street2 := some p.street2, zip := some p.zip,
    city := some p.city, state := some p.state, country := some p.country }

/-- UpdateFieldValues over CommercialFields (partner.go:415-431,459-470). -/
def commercialData (p : Partner) : PartnerData :=
  { vat := some p.vat, creditLimit := some p.creditLimit }

/-- CommercialFields values read off a record set browsed by id; an empty set
reads as zero values. -/
def commercialDataOf (db : DB) (pid : Nat) : PartnerData :=
  match findP db pid with
  | none => { vat := some "", creditLimit := some 0 }
  | some p => commercialData p

/-- The address-field projection of a value map (the filter UpdateAddress
applies to its argument, partner.go:446-452). -/
def addrSubset (v : PartnerData) : PartnerData :=
  { street := v.street, street2 := v.street2, zip := v.zip,
    city := v.city, state := v.state, country := v.country }

/-- Whether a value map carries any address field (len(res.Keys()) test of
UpdateAddress partner.go:453, and the vals.Has loop of FieldsSync
partner.go:538-544). -/
def hasAddrKeys (v : PartnerData) : Bool :=
  v.street.isSome || v.street2.isSome || v.zip.isSome || v.city.isSome ||
    v.state.isSome || v.country.isSome

/-- UpdateAddress (partner.go:443-457): writes only the address fields of the
given vals, through the goto_super-tagged write path, so no synchronization
runs.  A no-op when vals carries no address field. -/
def updateAddress (db : DB) (ids : List Nat) (v : PartnerData) : DB :=
  if hasAddrKeys v then writeIds db ids (addrSubset v) else db

/-- OnchangeParent (partner.go:350-374): the full parent address snapshot when
this record is a contact with a parent that has at least one non-empty
address field; the empty map otherwise. -/
def onchangeParent (db : DB) (pid : Nat) : PartnerData :=
  match findP db pid with
  | none => {}
  | some p =>
    if p.ptype != "contact" then {}
    else
      match p.parent with
      | none => {}
      | some par =>
        match findP db par with
        | none => {}
        | some pp => if hasAnyAddress pp then addressData pp else {}

/-- rs.Children().Search(Type = "contact") of FieldsSync step 2b
(partner.go:540). -/
def contactChildren (db : DB) (pid : Nat) : List Nat :=
  (List.filter
    (fun p => p.active && p.parent == some pid && p.ptype == "contact") db).map
    (fun p => p.id)

/-- The CommercialFields loop of FieldsSync step 2a (partner.go:520-525):
some commercial field of the record is non-zero. -/
def anyCommNonzero (db : DB) (pid : Nat) : Bool :=
  (vatOf db pid != "") || (creditOf db pid != 0)

/-- Fold a state-and-count step over a list, accumulating the counts. -/
def foldCount (step : DB → Nat → DB × Nat) (db : DB) (ids : List Nat) : DB × Nat :=
  ids.foldl (fun acc pid =>
    let r := step acc.1 pid
    (r.1, acc.2 + r.2)) (db, 0)

mutual

/-- The Write extension (partner.go:587-624).  `gotoSuper` is the goto_super
context key: when present the call goes straight to Super().Write.  Otherwise
vals is applied and FieldsSync runs once per written record.  The returned
count is the number of FieldsSync invocations performed, the observable for
the re-entrancy claims.  Image resizing, website cleaning and the
company/users permission panic are external concerns that touch none of the
modeled fields. -/
def partnerWrite (fuel : Nat) (db : DB) (ids : List Nat) (vals : PartnerData)
    (gotoSuper : Bool) : DB × Nat :=
  match fuel with
  | 0 => (db, 0)
  | fuel + 1 =>
    if gotoSuper then (writeIds db ids vals, 0)
    else
      let vals := if vals.parent.isSome then { vals with companyName := some "" } else vals
      let db1 := writeIds db ids vals
      foldCount (fun d pid => fieldsSync fuel d pid vals) db1 ids

/-- FieldsSync (partner.go:500-545), invoked after create/update with the
written vals.  Counts itself as one synchronization. -/
def fieldsSync (fuel : Nat) (db : DB) (pid : Nat) (vals : PartnerData) : DB × Nat :=
  match fuel with
  | 0 => (db, 0)
  | fuel + 1 =>
    let s1 := if vals.parent.isSome then commercialSyncFromCompany fuel db pid
              else (db, 0)
    let db1 := s1.1
    let db2 := if (parentOf db1 pid).isSome && (ptypeOf db1 pid == "contact")
               then updateAddress db1 [pid] (onchangeParent db1 pid) else db1
    if childrenOf db2 pid = [] then (db2, s1.2 + 1)
    else
      let s3 := if (pid == cpOf db2 pid) && anyCommNonzero db2 pid
                then commercialSyncToChildren fuel db2 pid else (db2, 0)
      let db3 := s3.1
      let s4 := if ((childrenOf db3 pid).filter (fun c => !(pIsCompany db3 c))).any
                    (fun c => !(cpOf db3 c == cpOf db3 pid))
                then commercialSyncToChildren fuel db3 pid else (db3, 0)
      let db4 := s4.1
      let db5 := if hasAddrKeys vals
                 then updateAddress db4 (contactChildren db4 pid) vals else db4
      (db5, s1.2 + s3.2 + s4.2 + 1)

/-- CommercialSyncFromCompany (partner.go:472-481): a no-op on a record that
is its own commercial partner; otherwise writes the commercial fields of the
commercial partner onto the record through the untagged Write. -/
def commercialSyncFromCompany (fuel : Nat) (db : DB) (pid : Nat) : DB × Nat :=
  match fuel with
  | 0 => (db, 0)
  | fuel + 1 =>
    if pid == cpOf db pid then (db, 0)
    else partnerWrite fuel db [pid] (commercialDataOf db (cpOf db pid)) false

/-- CommercialSyncToChildren (partner.go:483-498): push the commercial fields
of the commercial partner to the non-company children, deeper levels first,
then one batch write at this level.  The batch write carries the context key
hexya_force_compute_write, not goto_super, so it goes through the full Write.
The SetCommercialPartner of partner.go:496 refreshes the framework-stored
compute, which this embedding derives on read, so it carries no further
state. -/
def commercialSyncToChildren (fuel : Nat) (db : DB) (pid : Nat) : DB × Nat :=
  match fuel with
  | 0 => (db, 0)
  | fuel + 1 =>
    let pdata := commercialDataOf db (cpOf db pid)
    let kids := (childrenOf db pid).filter (fun c => !(pIsCompany db c))
    if kids = [] then (db, 0)
    else
      let s1 := foldCount (fun d c => commercialSyncToChildren fuel d c) db kids
      let s2 := partnerWrite fuel s1.1 kids pdata false
      (s2.1, s1.2 + s2.2)

end

/-- A fresh record built by Super().Create from a value map, with the field
defaults declared on the model (Type "contact", Active true, partner.go:167-175,159). -/
def newPartner (newId : Nat) (vals : PartnerData) : Partner :=
  { id := newId
    parent := vals.parent
    isCompany := vals.isCompany.getD false
    ptype := vals.ptype.getD "contact"
    active := vals.active.getD true
    name := vals.name.getD ""
    companyName := vals.companyName.getD ""
    street := vals.street.getD ""
    street2 := vals.street2.getD ""
    zip := vals.zip.getD ""
    city := vals.city.getD ""
    state := vals.state.getD none
    country := vals.country.getD none
    vat := vals.vat.getD ""
    creditLimit := vals.creditLimit.getD 0 }

/-- HandleFirsrtContactCreation (partner.go:547-572), name kept from the
source: on creation of the first contact of a company (or root) without an
address, adopt the contact's address as the parent's. -/
def handleFirsrtContactCreation (db : DB) (pid : Nat) : DB :=
  let par := parentOf db pid
  let parIsCompany := match par with | none => false | some q => pIsCompany db q
  let grandpa : Option Nat := match par with | none => none | some q => parentOf db q
  if !parIsCompany && grandpa.isSome then db
  else
    let parKids := match par with | none => ([] : List Nat) | some q => childrenOf db q
    if parKids.length != 1 then db
    else
      let addressDefined := match findP db pid with
        | none => false
        | some p => hasAnyAddress p
      let parentAddressDefined := match par with
        | none => false
        | some q => match findP db q with
          | none => false
          | some p => hasAnyAddress p
      if addressDefined && !parentAddressDefined then
        let pdata := match findP db pid with
          | none => ({} : PartnerData)
          | some p => addressData p
        updateAddress db par.toList pdata
      else db

/-- The Create extension (partner.go:645-661): clear CompanyName when a parent
is set, insert the row, run FieldsSync with the creation vals, then the
first-contact bootstrap.  Website cleaning and default images are external
concerns outside the modeled fields. -/
def partnerCreate (fuel : Nat) (db : DB) (vals : PartnerData) (newId : Nat) :
    DB × Nat :=
  let vals := if vals.parent.isSome then { vals with companyName := some "" } else vals
  let db1 : DB := db ++ [newPartner newId vals]
  let s := fieldsSync fuel db1 newId vals
  (handleFirsrtContactCreation s.1 newId, s.2)

/-- The non-company descendants of a record reachable without crossing a
company boundary: the records CommercialSyncToChildren's recursion visits. -/
def reach (db : DB) : Nat → Nat → List Nat
  | 0, _ => []
  | f + 1, pid =>
    let kids := (childrenOf db pid).filter (fun c => !(pIsCompany db c))
    kids ++ kids.flatMap (fun k => reach db f k)

def reachOf (db : DB) (pid : Nat) : List Nat := reach db (db.length + 1) pid

/-- Number of parent links above a record (none when fuel runs out). -/
def depthAux (db : DB) : Nat → Nat → Option Nat
  | 0, _ => none
  | f + 1, q =>
    match findP db q with
    | none => some 0
    | some p =>
      match p.parent with
      | none => some 0
      | some r => (depthAux db f r).map (fun d => d + 1)

def depthD (db : DB) (q : Nat) : Nat := (depthAux db (db.length + 1) q).getD 0

/-- A value map that touches none of the fields the hierarchy or the display
name depend on: the shape of every value map the Synchronizer writes
internally. -/
def StructFree (v : PartnerData) : Prop :=
  v.name = none ∧ v.parent = none ∧ v.ptype = none ∧ v.isCompany = none ∧
    v.active = none ∧ v.companyName = none

instance (v : PartnerData) : Decidable (StructFree v) := by
  unfold StructFree; infer_instance

/-- The hierarchy-relevant projection of a record. -/
def structOf (p : Partner) : Nat × Option Nat × Bool × String × Bool × String × String :=
  (p.id, p.parent, p.isCompany, p.ptype, p.active, p.name, p.companyName)

def structMap (db : DB) : List (Nat × Option Nat × Bool × String × Bool × String × String) :=
  db.map structOf

/-! ### The Address Resolver (AddressGet, partner.go:830-884) -/

/-- Membership in atMap: the requested roles plus "contact"
(partner.go:839-843). -/
def atMember (addrTypes : List String) (t : String) : Bool :=
  addrTypes.contains t || t == "contact"

/-- len(atMap): the number of distinct requested roles, "contact" included. -/
def atCount (addrTypes : List String) : Nat :=
  ("contact" :: addrTypes).dedup.length

/-- The inner breadth-first scan of AddressGet (partner.go:849-865): dequeue,
mark visited, record a first match per requested type, early-return when all
types are matched, enqueue unvisited non-company children. -/
def agBFS (db : DB) (addrTypes : List String) :
    Nat → List Nat → List Nat → List (String × List Nat) →
    List Nat × List (String × List Nat) × Bool
  | 0, _, visited, result => (visited, result, false)
  | _ + 1, [], visited, result => (visited, result, false)
  | fuel + 1, record :: toScan, visited, result =>
    let visited := record :: visited
    let rType := ptypeOf db record
    let result := if atMember addrTypes rType && (result.lookup rType).isNone
                  then result ++ [(rType, [record])] else result
    if result.length == atCount addrTypes then (visited, result, true)
    else
      let newKids := (childrenOf db record).filter
        (fun c => !visited.contains c && !pIsCompany db c)
      agBFS db addrTypes fuel (toScan ++ newKids) visited result

/-- The ancestor loop of AddressGet (partner.go:847-871): scan from the
current probe, then move the probe to its parent unless the probe is a
company or parentless. -/
def agClimb (db : DB) (addrTypes : List String) (bfsFuel : Nat) :
    Nat → Nat → List Nat → List (String × List Nat) →
    List Nat × List (String × List Nat) × Bool
  | 0, _, visited, result => (visited, result, false)
  | fuel + 1, current, visited, result =>
    let r1 := agBFS db addrTypes bfsFuel [current] visited result
    if r1.2.2 then r1
    else if pIsCompany db current || (parentOf db current).isNone then
      (r1.1, r1.2.1, false)
    else
      match parentOf db current with
      | none => (r1.1, r1.2.1, false)
      | some par => agClimb db addrTypes bfsFuel fuel par r1.1 r1.2.1

/-- The outer loop over the seed records (partner.go:846), accumulating the
shared visited set and returning early as soon as every role is matched. -/
def agSeeds (db : DB) (addrTypes : List String) (bfsFuel climbFuel : Nat) :
    List Nat → List Nat → List (String × List Nat) →
    List (String × List Nat) × Bool
  | [], _, result => (result, false)
  | s :: rest, visited, result =>
    let r1 := agClimb db addrTypes bfsFuel climbFuel s visited result
    if r1.2.2 then (r1.2.1, true)
    else agSeeds db addrTypes bfsFuel climbFuel rest r1.1 r1.2.1

/-- AddressGet (partner.go:838-884).  Result values are record sets: a
singleton for a typed match, the "contact" match or the seed set for a
defaulted role.  On the early-return path the defaulting loop is skipped, as
in the source. -/
def addressGet (db : DB) (seeds : List Nat) (addrTypes : List String) :
    List (String × List Nat) :=
  let bfsFuel := (db.length + 1) * (db.length + 1) + 1
  let r := agSeeds db addrTypes bfsFuel (db.length + 1) seeds [] []
  if r.2 then r.1
  else
    let dflt := match r.1.lookup "contact" with
      | some ct => ct
      | none => seeds
    addrTypes.foldl
      (fun res t => if (res.lookup t).isNone then res ++ [(t, dflt)] else res) r.1

/-- Invariant of the traversal's partial result map: keys are distinct and
every key is a requested role or "contact" (only such types are recorded,
partner.go:854-856). -/
def agInv (addrTypes : List String) (result : List (String × List Nat)) : Prop :=
  (result.map Prod.fst).Nodup ∧ ∀ kv ∈ result, atMember addrTypes kv.1 = true

/-! ### The Address Formatter (DisplayAddress, partner.go:886-915) -/

structure Country where
  id : Nat
  code : String := ""
  name : String := ""
  addressFormat : String := ""
  deriving Repr, DecidableEq

structure CountryState where
  id : Nat
  code : String := ""
  name : String := ""
  deriving Repr, DecidableEq

def findCountry (cs : List Country) (i : Option Nat) : Option Country :=
  i.bind (fun j => cs.find? (fun c => c.id == j))

def findState (ss : List CountryState) (i : Option Nat) : Option CountryState :=
  i.bind (fun j => ss.find? (fun s => s.id == j))

/-- basetypes.AddressData: the data fed to the address template. -/
structure AddressData where
  street : String := ""
  street2 : String := ""
  city : String := ""
  zip : String := ""
  stateCode : String := ""
  stateName : String := ""
  countryCode : String := ""
  countryName : String := ""
  companyName : String := ""
  deriving Repr, DecidableEq

/-- The fallback layout of partner.go:892. -/
def defaultAddressFormat : String :=
  "\x7b\x7b .Street \x7d\x7d\n\x7b\x7b .Street2 \x7d\x7d\n\x7b\x7b .City \x7d\x7d \x7b\x7b .StateCode \x7d\x7d \x7b\x7b .Zip \x7d\x7d\n\x7b\x7b .CountryName\x7d\x7d"

/-- When pat is a leading pattern of s, the remainder of s after it. -/
def patRest : List Char → List Char → Option (List Char)
  | [], s => some s
  | _ :: _, [] => none
  | p :: ps, c :: cs => if p == c then patRest ps cs else none

/-- Left-to-right, non-overlapping replacement of pat by rep over a
character list, fuel-bounded. -/
def replaceFuel (pat rep : List Char) : Nat → List Char → List Char
  | 0, s => s
  | _ + 1, [] => []
  | fuel + 1, c :: cs =>
    match patRest pat (c :: cs) with
    | some rest => rep ++ replaceFuel pat rep fuel rest
    | none => c :: replaceFuel pat rep fuel cs

/-- strings.Replace(s, pat, rep, -1) on the character content. -/
def strReplace (s pat rep : String) : String :=
  String.mk (replaceFuel pat.data rep.data (s.data.length + 1) s.data)

/-- text/template rendering restricted to the placeholder-substitution
fragment this module uses: each field action is replaced by its value.  Both
spellings that occur in the module's formats (with and without a space before
the closing braces) are substituted. -/
def renderAddressTemplate (fmt : String) (d : AddressData) : String :=
  let s := strReplace fmt "\x7b\x7b .CompanyName \x7d\x7d" d.companyName
  let s := strReplace s "\x7b\x7b .CompanyName\x7d\x7d" d.companyName
  let s := strReplace s "\x7b\x7b .Street \x7d\x7d" d.street
  let s := strReplace s "\x7b\x7b .Street\x7d\x7d" d.street
  let s := strReplace s "\x7b\x7b .Street2 \x7d\x7d" d.street2
  let s := strReplace s "\x7b\x7b .Street2\x7d\x7d" d.street2
  let s := strReplace s "\x7b\x7b .City \x7d\x7d" d.city
  let s := strReplace s "\x7b\x7b .City\x7d\x7d" d.city
  let s := strReplace s "\x7b\x7b .StateCode \x7d\x7d" d.stateCode
  let s := strReplace s "\x7b\x7b .StateCode\x7d\x7d" d.stateCode
  let s := strReplace s "\x7b\x7b .StateName \x7d\x7d" d.stateName
  let s := strReplace s "\x7b\x7b .StateName\x7d\x7d" d.stateName
  let s := strReplace s "\x7b\x7b .Zip \x7d\x7d" d.zip
  let s := strReplace s "\x7b\x7b .Zip\x7d\x7d" d.zip
  let s := strReplace s "\x7b\x7b .CountryCode \x7d\x7d" d.countryCode
  let s := strReplace s "\x7b\x7b .CountryCode\x7d\x7d" d.countryCode
  let s := strReplace s "\x7b\x7b .CountryName \x7d\x7d" d.countryName
  let s := strReplace s "\x7b\x7b .CountryName\x7d\x7d" d.countryName
  s

/-- ComputeCommercialCompanyName (partner.go:283-291). -/
def commercialCompanyName (db : DB) (pid : Nat) : String :=
  let cp := cpOf db pid
  if pIsCompany db cp then nameOf db cp else companyNameOf db pid

/-- DisplayAddress (partner.go:886-915).  The country's AddressFormat is used
when non-empty, the default layout otherwise; the commercial company name is
prefixed whenever it is non-empty.  The `withoutCompany` parameter is
accepted and, as in the source, never read. -/
def displayAddress (db : DB) (countries : List Country)
    (states : List CountryState) (pid : Nat) (withoutCompany : Bool) : String :=
  let p? := findP db pid
  let country := findCountry countries (p?.bind (fun p => p.country))
  let state := findState states (p?.bind (fun p => p.state))
  let addressFormat0 := (country.map (fun c => c.addressFormat)).getD ""
  let addressFormat := if addressFormat0 = "" then defaultAddressFormat
                       else addressFormat0
  let data : AddressData :=
    { street := (p?.map (fun p => p.street)).getD ""
      street2 := (p?.map (fun p => p.street2)).getD ""
      city := (p?.map (fun p => p.city)).getD ""
      zip := (p?.map (fun p => p.zip)).getD ""
      stateCode := (state.map (fun s => s.code)).getD ""
      stateName := (state.map (fun s => s.name)).getD ""
      countryCode := (country.map (fun c => c.code)).getD ""
      countryName := (country.map (fun c => c.name)).getD ""
      companyName := commercialCompanyName db pid }
  let addressFormat := if data.companyName != ""
                       then "\x7b\x7b .CompanyName \x7d\x7d\n" ++ addressFormat
                       else addressFormat
  renderAddressTemplate addressFormat data

/-! ### Example stores used by witnesses and counterexamples -/

/-- A small well-formed store: a company, a contact under it, an invoice
address under the contact. -/
def exDB1 : DB :=
  [{ id := 1, isCompany := true, name := "ACME", vat := "FR123", street := "1 Main St" },
   { id := 2, parent := some 1, ptype := "contact", name := "Bob" },
   { id := 3, parent := some 2, ptype := "invoice", name := "Bill" }]

def exP2 : Partner := { id := 2, parent := some 1, ptype := "contact", name := "Bob" }

/-- A company with commercial data over a small subtree: a contact child, a
grandchild, and a company child that is its own boundary. -/
def exDB2 : DB :=
  [{ id := 1, isCompany := true, name := "Corp", vat := "VAT1", creditLimit := 50 },
   { id := 2, parent := some 1, ptype := "contact", name := "Ann" },
   { id := 3, parent := some 2, ptype := "delivery", name := "Dock" },
   { id := 4, parent := some 1, isCompany := true, name := "Sub", vat := "VAT4" }]

/-- A parent with an address and a contact child carrying its own street. -/
def exDB3 : DB :=
  [{ id := 1, isCompany := true, name := "P", street := "1 Parent Way", city := "Lyon" },
   { id := 2, parent := some 1, ptype := "contact", name := "Kid", street := "Old St" }]

/-- The parent of exDB3 alone: the store a creation of the contact starts
from. -/
def exDB3c : DB :=
  [{ id := 1, isCompany := true, name := "P", street := "1 Parent Way", city := "Lyon" }]

/-- A company with no address and no children yet: the bootstrap scenario. -/
def exDB5 : DB :=
  [{ id := 1, isCompany := true, name := "A" }]

/-- A company with commercial data and a detached person: writing the parent
link triggers the untagged commercial pull. -/
def exDB6 : DB :=
  [{ id := 1, isCompany := true, name := "Corp6", vat := "V6" },
   { id := 2, ptype := "contact", name := "Solo" }]

/-- A lone seed of type "other": AddressGet matches nothing. -/
def exDB4 : DB :=
  [{ id := 7, ptype := "other", name := "Misc" }]

/-- A company with an address in a country without a format, for the
formatter. -/
def exDB9 : DB :=
  [{ id := 1, isCompany := true, name := "ACME9", street := "5 High St",
     city := "Paris", zip := "75001", country := some 10 },
   { id := 2, parent := some 1, ptype := "contact", name := "Jo",
     street := "5 High St", city := "Paris", zip := "75001", country := some 10,
     state := some 20 },
   { id := 3, parent := some 1, ptype := "contact", name := "Ko",
     city := "Xan", zip := "Z1", country := some 11 }]

def exCountries : List Country :=
  [{ id := 10, code := "FR", name := "France" },
   { id := 11, code := "XX", name := "Xanadu",
     addressFormat := "\x7b\x7b .City \x7d\x7d/\x7b\x7b .Zip \x7d\x7d" }]

def exStates : List CountryState :=
  [{ id := 20, code := "IDF", name := "Ile-de-France" }]

/-! ### Basic store lemmas -/

theorem findP_mem {db : DB} {q : Nat} {r : Partner} (h : findP db q = some r) :
    r ∈ db ∧ r.id = q := by
  unfold findP at h
  have hmem := List.mem_of_find?_eq_some h
  have hpred := List.find?_some h
  exact ⟨hmem, by simpa using hpred⟩

theorem findP_eq_of_mem {db : DB} {p : Partner} (hn : NodupIds db) (hp : p ∈ db) :
    findP db p.id = some p := by
  unfold NodupIds at hn
  induction db with
  | nil => cases hp
  | cons h t ih =>
    simp only [List.map_cons, List.nodup_cons] at hn
    rcases List.mem_cons.mp hp with rfl | hmem
    · unfold findP
      simp [List.find?]
    · unfold findP
      simp only [List.find?]
      have hne : (h.id == p.id) = false := by
        by_cases hcase : h.id = p.id
        · exfalso
          exact hn.1 (hcase ▸ List.mem_map_of_mem Partner.id hmem)
        · simp [hcase]
      rw [hne]
      exact ih hn.2 hmem

theorem findP_isSome_of_mem {db : DB} {p : Partner} (hp : p ∈ db) :
    (findP db p.id).isSome := by
  induction db with
  | nil => cases hp
  | cons h t ih =>
    rcases List.mem_cons.mp hp with rfl | hmem
    · unfold findP; simp [List.find?]
    · unfold findP
      simp only [List.find?]
      by_cases hcase : (h.id == p.id) = true
      · rw [hcase]; rfl
      · rw [eq_false_of_ne_true hcase]
        exact ih hmem

theorem wf_parent_found {db : DB} (hw : Wf db) {p : Partner} (hp : p ∈ db)
    {q : Nat} (hq : p.parent = some q) : ∃ r, findP db q = some r := by
  unfold Wf WfB at hw
  have h1 := List.all_eq_true.mp hw p hp
  rw [hq] at h1
  simp only [Option.all_some] at h1
  exact Option.isSome_iff_exists.mp h1

theorem acyclic_chainTerm {db : DB} (ha : Acyclic db) {p : Partner} (hp : p ∈ db) :
    chainTerm db (db.length + 1) p.id = true :=
  List.all_eq_true.mp ha p hp

/-- One unfolding step of `resolveCP`, stated for an abstract fuel. -/
theorem resolveCP_step_some {db : DB} {f q par : Nat} {p : Partner}
    (hfind : findP db q = some p) (hco : ¬p.isCompany = true)
    (hpar : p.parent = some par) :
    resolveCP db (f + 1) q = resolveCP db f par := by
  simp [resolveCP, hfind, hco, hpar]

theorem resolveCP_stop {db : DB} {f q : Nat} {p : Partner}
    (hfind : findP db q = some p)
    (hstop : p.isCompany = true ∨ p.parent = none) :
    resolveCP db (f + 1) q = q := by
  rcases hstop with h | h <;> simp [resolveCP, hfind, h]

theorem chainTerm_step_some {db : DB} {f q par : Nat} {p : Partner}
    (hfind : findP db q = some p) (hpar : p.parent = some par) :
    chainTerm db (f + 1) q = chainTerm db f par := by
  simp [chainTerm, hfind, hpar]

/-- With a terminating chain, extra fuel does not change the resolution. -/
theorem resolveCP_fuel_congr {db : DB} :
    ∀ {f g q : Nat}, chainTerm db f q = true → f ≤ g →
      resolveCP db g q = resolveCP db f q := by
  intro f
  induction f with
  | zero => intro g q hc _; simp [chainTerm] at hc
  | succ n ih =>
    intro g q hc hfg
    obtain ⟨m, rfl⟩ := Nat.exists_eq_add_of_le hfg
    cases m with
    | zero => rfl
    | succ m =>
      have hg : n + 1 + (m + 1) = (n + m + 1) + 1 := by omega
      rw [hg]
      cases hfind : findP db q with
      | none => simp [resolveCP, hfind]
      | some p =>
        by_cases hco : p.isCompany
        · simp [resolveCP, hfind, hco]
        · cases hpar : p.parent with
          | none => simp [resolveCP, hfind, hco, hpar]
          | some par =>
            have hc' : chainTerm db n par = true := by
              rw [chainTerm_step_some hfind hpar] at hc; exact hc
            have hres := ih hc' (show n ≤ n + m + 1 by omega)
            calc resolveCP db (n + m + 1 + 1) q
                = resolveCP db (n + m + 1) par := resolveCP_step_some hfind hco hpar
              _ = resolveCP db n par := hres
              _ = resolveCP db (n + 1) q := (resolveCP_step_some hfind hco hpar).symm

theorem chainTerm_fuel_mono {db : DB} :
    ∀ {f g q : Nat}, chainTerm db f q = true → f ≤ g → chainTerm db g q = true := by
  intro f
  induction f with
  | zero => intro g q hc _; simp [chainTerm] at hc
  | succ n ih =>
    intro g q hc hfg
    obtain ⟨m, rfl⟩ := Nat.exists_eq_add_of_le hfg
    cases m with
    | zero => exact hc
    | succ m =>
      have hg : n + 1 + (m + 1) = (n + m + 1) + 1 := by omega
      rw [hg]
      cases hfind : findP db q with
      | none => simp [chainTerm, hfind]
      | some p =>
        cases hpar : p.parent with
        | none => simp [chainTerm, hfind, hpar]
        | some par =>
          have hc' : chainTerm db n par = true := by
            simpa [chainTerm, hfind, hpar] using hc
          have hres := ih hc' (show n ≤ n + m + 1 by omega)
          simpa [chainTerm, hfind, hpar] using hres

/-- Resolution of a found record, one unfolding step. -/
theorem cpOf_step {db : DB} {p : Partner} (hn : NodupIds db) (ha : Acyclic db)
    (hp : p ∈ db) :
    cpOf db p.id =
      if p.isCompany ∨ p.parent = none then p.id
      else cpOf db (p.parent.getD 0) := by
  have hfind := findP_eq_of_mem hn hp
  have hct := acyclic_chainTerm ha hp
  by_cases hco : p.isCompany
  · simp [cpOf, resolveCP, hfind, hco]
  · cases hpar : p.parent with
    | none => simp [cpOf, resolveCP, hfind, hco, hpar]
    | some par =>
      have h1 : cpOf db p.id = resolveCP db db.length par :=
        resolveCP_step_some hfind hco hpar
      have hc' : chainTerm db db.length par = true := by
        rw [chainTerm_step_some hfind hpar] at hct; exact hct
      have h2 : cpOf db par = resolveCP db db.length par :=
        resolveCP_fuel_congr hc' (by omega)
      simp [hco, hpar, h1, h2]

/-- The resolved commercial partner of a found record is found, and is a
company or parentless. -/
theorem cpOf_terminal {db : DB} (hw : Wf db) :
    ∀ {f q : Nat} {p : Partner}, findP db q = some p → chainTerm db f q = true →
      ∃ r, findP db (resolveCP db f q) = some r ∧
        (r.isCompany = true ∨ r.parent = none) := by
  intro f
  induction f with
  | zero => intro q p _ hc; simp [chainTerm] at hc
  | succ n ih =>
    intro q p hfind hc
    by_cases hco : p.isCompany
    · exact ⟨p, by rw [resolveCP_stop hfind (Or.inl hco)]; exact ⟨hfind, Or.inl hco⟩⟩
    · cases hpar : p.parent with
      | none =>
        exact ⟨p, by rw [resolveCP_stop hfind (Or.inr hpar)]; exact ⟨hfind, Or.inr hpar⟩⟩
      | some par =>
        have hc' : chainTerm db n par = true := by
          rw [chainTerm_step_some hfind hpar] at hc; exact hc
        obtain ⟨r, hr⟩ := wf_parent_found hw (findP_mem hfind).1 hpar
        have hres := ih hr hc'
        rw [resolveCP_step_some hfind hco hpar]
        exact hres

/-! ### Write-path lemmas -/

theorem applyData_id (p : Partner) (v : PartnerData) : (applyData p v).id = p.id := rfl

theorem findP_writeIds (db : DB) (ids : List Nat) (v : PartnerData) (q : Nat) :
    findP (writeIds db ids v) q =
      (findP db q).map (fun p => if ids.contains p.id then applyData p v else p) := by
  induction db with
  | nil => rfl
  | cons h t ih =>
    have hhd : (if ids.contains h.id then applyData h v else h).id = h.id := by
      split <;> rfl
    show findP ((if ids.contains h.id then applyData h v else h) :: writeIds t ids v) q = _
    unfold findP
    simp only [List.find?_cons, hhd]
    by_cases hq : h.id = q
    · have hb : (h.id == q) = true := by simp [hq]
      simp [hb]
    · have hb : (h.id == q) = false := by simp [hq]
      simp only [hb]
      exact ih

theorem findP_writeIds_not_mem {db : DB} {ids : List Nat} {v : PartnerData} {q : Nat}
    (hq : ids.contains q = false) : findP (writeIds db ids v) q = findP db q := by
  rw [findP_writeIds]
  cases hfind : findP db q with
  | none => rfl
  | some p =>
    have hid : p.id = q := (findP_mem hfind).2
    have hnm : q ∉ ids := by simpa using hq
    simp [hid, hnm]

theorem structOf_applyData {v : PartnerData} (hv : StructFree v) (p : Partner) :
    structOf (applyData p v) = structOf p := by
  obtain ⟨h1, h2, h3, h4, h5, h6⟩ := hv
  simp [structOf, applyData, h1, h2, h3, h4, h5, h6]

theorem structMap_writeIds {v : PartnerData} (hv : StructFree v)
    (db : DB) (ids : List Nat) : structMap (writeIds db ids v) = structMap db := by
  induction db with
  | nil => rfl
  | cons h t ih =>
    show structMap ((if ids.contains h.id then applyData h v else h) :: writeIds t ids v)
      = structMap (h :: t)
    simp only [structMap, List.map_cons] at ih ⊢
    rw [ih]
    congr 1
    split
    · exact structOf_applyData hv h
    · rfl

theorem addrSubset_structFree (v : PartnerData) : StructFree (addrSubset v) :=
  ⟨rfl, rfl, rfl, rfl, rfl, rfl⟩

theorem commercialDataOf_structFree (db : DB) (pid : Nat) :
    StructFree (commercialDataOf db pid) := by
  unfold commercialDataOf
  split <;> exact ⟨rfl, rfl, rfl, rfl, rfl, rfl⟩

theorem structMap_updateAddress (db : DB) (ids : List Nat) (v : PartnerData) :
    structMap (updateAddress db ids v) = structMap db := by
  unfold updateAddress
  split
  · exact structMap_writeIds (addrSubset_structFree v) db ids
  · rfl

/-! ### Congruence under structMap equality -/

theorem structMap_length {db1 db2 : DB} (h : structMap db1 = structMap db2) :
    db1.length = db2.length := by
  have := congrArg List.length h
  simpa [structMap] using this

theorem findP_struct {db1 db2 : DB} (h : structMap db1 = structMap db2) (q : Nat) :
    (findP db1 q).map structOf = (findP db2 q).map structOf := by
  induction db1 generalizing db2 with
  | nil =>
    cases db2 with
    | nil => rfl
    | cons h2 t2 => simp [structMap] at h
  | cons h1 t1 ih =>
    cases db2 with
    | nil => simp [structMap] at h
    | cons h2 t2 =>
      simp only [structMap, List.map_cons, List.cons.injEq] at h
      have hid : h1.id = h2.id := congrArg (fun s => s.1) h.1
      unfold findP
      by_cases hq : h1.id = q
      · rw [List.find?_cons_of_pos _ (by simp [hq]),
          List.find?_cons_of_pos _ (by simp [hid ▸ hq])]
        simpa using h.1
      · rw [List.find?_cons_of_neg _ (by simp [hq]),
          List.find?_cons_of_neg _ (by simp [hid ▸ hq])]
        exact ih h.2

/-- The case split produced by `findP_struct`. -/
theorem findP_struct_cases {db1 db2 : DB} (h : structMap db1 = structMap db2) (q : Nat) :
    (findP db1 q = none ∧ findP db2 q = none) ∨
      ∃ p1 p2, findP db1 q = some p1 ∧ findP db2 q = some p2 ∧
        structOf p1 = structOf p2 := by
  have hs := findP_struct h q
  cases h1 : findP db1 q with
  | none =>
    cases h2 : findP db2 q with
    | none => exact Or.inl ⟨rfl, rfl⟩
    | some p2 => rw [h1, h2] at hs; exact Option.noConfusion hs
  | some p1 =>
    cases h2 : findP db2 q with
    | none => rw [h1, h2] at hs; exact Option.noConfusion hs
    | some p2 =>
      rw [h1, h2] at hs
      exact Or.inr ⟨p1, p2, rfl, rfl, Option.some.inj hs⟩

theorem parentOf_struct {db1 db2 : DB} (h : structMap db1 = structMap db2) (q : Nat) :
    parentOf db1 q = parentOf db2 q := by
  rcases findP_struct_cases h q with ⟨h1, h2⟩ | ⟨p1, p2, h1, h2, hs⟩ <;>
    unfold parentOf <;> rw [h1, h2]
  exact congrArg (fun s => s.2.1) hs

theorem pIsCompany_struct {db1 db2 : DB} (h : structMap db1 = structMap db2) (q : Nat) :
    pIsCompany db1 q = pIsCompany db2 q := by
  rcases findP_struct_cases h q with ⟨h1, h2⟩ | ⟨p1, p2, h1, h2, hs⟩ <;>
    unfold pIsCompany <;> rw [h1, h2]
  exact congrArg (fun s => s.2.2.1) hs

theorem ptypeOf_struct {db1 db2 : DB} (h : structMap db1 = structMap db2) (q : Nat) :
    ptypeOf db1 q = ptypeOf db2 q := by
  rcases findP_struct_cases h q with ⟨h1, h2⟩ | ⟨p1, p2, h1, h2, hs⟩ <;>
    unfold ptypeOf <;> rw [h1, h2]
  exact congrArg (fun s => s.2.2.2.1) hs

theorem companyNameOf_struct {db1 db2 : DB} (h : structMap db1 = structMap db2)
    (q : Nat) : companyNameOf db1 q = companyNameOf db2 q := by
  rcases findP_struct_cases h q with ⟨h1, h2⟩ | ⟨p1, p2, h1, h2, hs⟩ <;>
    unfold companyNameOf <;> rw [h1, h2]
  exact congrArg (fun s => s.2.2.2.2.2.2) hs

theorem childrenOf_struct {db1 db2 : DB} (h : structMap db1 = structMap db2)
    (pid : Nat) : childrenOf db1 pid = childrenOf db2 pid := by
  induction db1 generalizing db2 with
  | nil => cases db2 with
    | nil => rfl
    | cons h2 t2 => simp [structMap] at h
  | cons h1 t1 ih =>
    cases db2 with
    | nil => simp [structMap] at h
    | cons h2 t2 =>
      simp only [structMap, List.map_cons, List.cons.injEq] at h
      have hid : h1.id = h2.id := congrArg (fun s => s.1) h.1
      have hpar : h1.parent = h2.parent := congrArg (fun s => s.2.1) h.1
      have hact : h1.active = h2.active := congrArg (fun s => s.2.2.2.2.1) h.1
      have ht := ih h.2
      unfold childrenOf at ht ⊢
      simp only [List.filter_cons]
      have hcond : (h1.active && h1.parent == some pid)
          = (h2.active && h2.parent == some pid) := by rw [hact, hpar]
      rw [hcond]
      by_cases hc : (h2.active && h2.parent == some pid) = true
      · rw [if_pos hc, if_pos hc]
        simp only [List.map_cons, hid, ht]
      · rw [if_neg hc, if_neg hc]
        exact ht

theorem contactChildren_struct {db1 db2 : DB} (h : structMap db1 = structMap db2)
    (pid : Nat) : contactChildren db1 pid = contactChildren db2 pid := by
  induction db1 generalizing db2 with
  | nil => cases db2 with
    | nil => rfl
    | cons h2 t2 => simp [structMap] at h
  | cons h1 t1 ih =>
    cases db2 with
    | nil => simp [structMap] at h
    | cons h2 t2 =>
      simp only [structMap, List.map_cons, List.cons.injEq] at h
      have hid : h1.id = h2.id := congrArg (fun s => s.1) h.1
      have hpar : h1.parent = h2.parent := congrArg (fun s => s.2.1) h.1
      have hty : h1.ptype = h2.ptype := congrArg (fun s => s.2.2.2.1) h.1
      have hact : h1.active = h2.active := congrArg (fun s => s.2.2.2.2.1) h.1
      have ht := ih h.2
      unfold contactChildren at ht ⊢
      simp only [List.filter_cons]
      have hcond : (h1.active && h1.parent == some pid && h1.ptype == "contact")
          = (h2.active && h2.parent == some pid && h2.ptype == "contact") := by
        rw [hact, hpar, hty]
      rw [hcond]
      by_cases hc : (h2.active && h2.parent == some pid && h2.ptype == "contact") = true
      · rw [if_pos hc, if_pos hc]
        simp only [List.map_cons, hid, ht]
      · rw [if_neg hc, if_neg hc]
        exact ht

theorem resolveCP_struct {db1 db2 : DB} (h : structMap db1 = structMap db2) :
    ∀ (f q : Nat), resolveCP db1 f q = resolveCP db2 f q := by
  intro f
  induction f with
  | zero => intro q; rfl
  | succ n ih =>
    intro q
    rcases findP_struct_cases h q with ⟨h1, h2⟩ | ⟨p1, p2, h1, h2, hs⟩
    · simp [resolveCP, h1, h2]
    · have hco : p1.isCompany = p2.isCompany := congrArg (fun s => s.2.2.1) hs
      have hpar : p1.parent = p2.parent := congrArg (fun s => s.2.1) hs
      simp only [resolveCP, h1, h2, ← hco, ← hpar]
      cases p1.isCompany
      · cases p1.parent with
        | none => simp
        | some par => simp [ih par]
      · simp

theorem chainTerm_struct {db1 db2 : DB} (h : structMap db1 = structMap db2) :
    ∀ (f q : Nat), chainTerm db1 f q = chainTerm db2 f q := by
  intro f
  induction f with
  | zero => intro q; rfl
  | succ n ih =>
    intro q
    rcases findP_struct_cases h q with ⟨h1, h2⟩ | ⟨p1, p2, h1, h2, hs⟩
    · simp [chainTerm, h1, h2]
    · have hpar : p1.parent = p2.parent := congrArg (fun s => s.2.1) hs
      simp only [chainTerm, h1, h2, ← hpar]
      cases p1.parent with
      | none => rfl
      | some par => exact ih par

theorem cpOf_struct {db1 db2 : DB} (h : structMap db1 = structMap db2) (q : Nat) :
    cpOf db1 q = cpOf db2 q := by
  unfold cpOf
  rw [structMap_length h, resolveCP_struct h]

theorem depthAux_struct {db1 db2 : DB} (h : structMap db1 = structMap db2) :
    ∀ (f q : Nat), depthAux db1 f q = depthAux db2 f q := by
  intro f
  induction f with
  | zero => intro q; rfl
  | succ n ih =>
    intro q
    rcases findP_struct_cases h q with ⟨h1, h2⟩ | ⟨p1, p2, h1, h2, hs⟩
    · simp [depthAux, h1, h2]
    · have hpar : p1.parent = p2.parent := congrArg (fun s => s.2.1) hs
      simp only [depthAux, h1, h2, ← hpar]
      cases p1.parent with
      | none => rfl
      | some par => simp [ih par]

theorem depthD_struct {db1 db2 : DB} (h : structMap db1 = structMap db2) (q : Nat) :
    depthD db1 q = depthD db2 q := by
  unfold depthD
  rw [structMap_length h, depthAux_struct h]

theorem reach_struct {db1 db2 : DB} (h : structMap db1 = structMap db2) :
    ∀ (f q : Nat), reach db1 f q = reach db2 f q := by
  intro f
  induction f with
  | zero => intro q; rfl
  | succ n ih =>
    intro q
    have hk : ((childrenOf db1 q).filter (fun c => !(pIsCompany db1 c)))
        = ((childrenOf db2 q).filter (fun c => !(pIsCompany db2 c))) := by
      rw [childrenOf_struct h]
      exact List.filter_congr (fun c _ => by rw [pIsCompany_struct h])
    show (childrenOf db1 q).filter _ ++ _ = (childrenOf db2 q).filter _ ++ _
    rw [hk]
    have hfun : (fun k => reach db1 n k) = fun k => reach db2 n k := funext ih
    rw [hfun]

theorem nodupIds_struct {db1 db2 : DB} (h : structMap db1 = structMap db2) :
    NodupIds db1 ↔ NodupIds db2 := by
  unfold NodupIds
  have hids : db1.map Partner.id = db2.map Partner.id := by
    have h1 : db1.map Partner.id = (structMap db1).map (fun s => s.1) := by
      unfold structMap; rw [List.map_map]; rfl
    have h2 : db2.map Partner.id = (structMap db2).map (fun s => s.1) := by
      unfold structMap; rw [List.map_map]; rfl
    rw [h1, h2, h]
  rw [hids]

theorem findP_isSome_struct {db1 db2 : DB} (h : structMap db1 = structMap db2)
    (q : Nat) : (findP db1 q).isSome = (findP db2 q).isSome := by
  rcases findP_struct_cases h q with ⟨h1, h2⟩ | ⟨p1, p2, h1, h2, _⟩ <;> simp [h1, h2]

theorem wf_struct {db1 db2 : DB} (h : structMap db1 = structMap db2) :
    Wf db1 ↔ Wf db2 := by
  unfold Wf WfB
  have haux : ∀ {l1 l2 : List Partner}, l1.map structOf = l2.map structOf →
      (l1.all (fun p => p.parent.all (fun q => (findP db1 q).isSome)))
        = (l2.all (fun p => p.parent.all (fun q => (findP db2 q).isSome))) := by
    intro l1
    induction l1 with
    | nil =>
      intro l2 hl
      cases l2 with
      | nil => rfl
      | cons h2 t2 => simp at hl
    | cons h1 t1 ih =>
      intro l2 hl
      cases l2 with
      | nil => simp at hl
      | cons h2 t2 =>
        simp only [List.map_cons, List.cons.injEq] at hl
        have hpar : h1.parent = h2.parent := congrArg (fun s => s.2.1) hl.1
        simp only [List.all_cons]
        rw [ih hl.2, hpar]
        congr 1
        cases h2.parent with
        | none => rfl
        | some q => simpa using findP_isSome_struct h q
  rw [haux h]

theorem acyclic_struct {db1 db2 : DB} (h : structMap db1 = structMap db2) :
    Acyclic db1 ↔ Acyclic db2 := by
  unfold Acyclic AcyclicB
  have haux : ∀ {l1 l2 : List Partner}, l1.map structOf = l2.map structOf →
      (l1.all (fun p => chainTerm db1 (db1.length + 1) p.id))
        = (l2.all (fun p => chainTerm db2 (db2.length + 1) p.id)) := by
    intro l1
    induction l1 with
    | nil =>
      intro l2 hl
      cases l2 with
      | nil => rfl
      | cons h2 t2 => simp at hl
    | cons h1 t1 ih =>
      intro l2 hl
      cases l2 with
      | nil => simp at hl
      | cons h2 t2 =>
        simp only [List.map_cons, List.cons.injEq] at hl
        have hid : h1.id = h2.id := congrArg (fun s => s.1) hl.1
        simp only [List.all_cons]
        rw [ih hl.2, hid, structMap_length h, chainTerm_struct h]
  rw [haux h]

/-! ### Fold lemmas -/

theorem foldl_pres {f : DB → Nat → DB} {R : DB → DB → Prop}
    (hrefl : ∀ d, R d d) (htrans : ∀ {a b c : DB}, R a b → R b c → R a c)
    (hstep : ∀ d p, R d (f d p)) :
    ∀ (ids : List Nat) (db : DB), R db (ids.foldl f db) := by
  intro ids
  induction ids with
  | nil => intro db; exact hrefl db
  | cons p rest ih =>
    intro db
    simp only [List.foldl_cons]
    exact htrans (hstep db p) (ih (f db p))

/-- The state component of a counting fold satisfies any reflexive-transitive
relation each step satisfies. -/
theorem foldCount_pres {f : DB → Nat → DB × Nat} {R : DB → DB → Prop}
    (hrefl : ∀ d, R d d) (htrans : ∀ {a b c : DB}, R a b → R b c → R a c)
    (hstep : ∀ d p, R d (f d p).1) :
    ∀ (ids : List Nat) (db : DB) (k : Nat),
      R db (ids.foldl (fun acc pid =>
        ((f acc.1 pid).1, acc.2 + (f acc.1 pid).2)) (db, k)).1 := by
  intro ids
  induction ids with
  | nil => intro db k; exact hrefl db
  | cons p rest ih =>
    intro db k
    simp only [List.foldl_cons]
    exact htrans (hstep db p) (ih (f db p).1 _)

/-! ### Structure preservation of the Synchronizer -/

theorem structMap_sync : ∀ fuel : Nat,
    (∀ db ids vals gs, StructFree vals →
      structMap (partnerWrite fuel db ids vals gs).1 = structMap db)
  ∧ (∀ db pid vals, structMap (fieldsSync fuel db pid vals).1 = structMap db)
  ∧ (∀ db pid, structMap (commercialSyncFromCompany fuel db pid).1 = structMap db)
  ∧ (∀ db pid, structMap (commercialSyncToChildren fuel db pid).1 = structMap db) := by
  intro fuel
  induction fuel with
  | zero =>
    exact ⟨fun db ids vals gs _ => rfl, fun db pid vals => rfl,
      fun db pid => rfl, fun db pid => rfl⟩
  | succ n ih =>
    obtain ⟨ihW, ihF, ihC, ihT⟩ := ih
    have hW : ∀ db ids vals gs, StructFree vals →
        structMap (partnerWrite (n + 1) db ids vals gs).1 = structMap db := by
      intro db ids vals gs hv
      simp only [partnerWrite]
      cases gs with
      | true => simpa using structMap_writeIds hv db ids
      | false =>
        have hv' : (if vals.parent.isSome
            then { vals with companyName := some "" } else vals) = vals := by
          rw [hv.2.1]
          rfl
        simp only [Bool.false_eq_true, if_false, hv', foldCount]
        exact (foldCount_pres (R := fun a b => structMap b = structMap a)
          (fun d => rfl) (fun hab hbc => hbc.trans hab)
          (fun d p => ihF d p vals) ids (writeIds db ids vals) 0).trans
          (structMap_writeIds hv db ids)
    have hF : ∀ db pid vals,
        structMap (fieldsSync (n + 1) db pid vals).1 = structMap db := by
      intro db pid vals
      simp only [fieldsSync]
      split_ifs <;>
        simp only [ihC, ihT, structMap_updateAddress]
    have hC : ∀ db pid,
        structMap (commercialSyncFromCompany (n + 1) db pid).1 = structMap db := by
      intro db pid
      simp only [commercialSyncFromCompany]
      split_ifs
      · rfl
      · exact ihW db [pid] _ false (commercialDataOf_structFree db (cpOf db pid))
    have hT : ∀ db pid,
        structMap (commercialSyncToChildren (n + 1) db pid).1 = structMap db := by
      intro db pid
      simp only [commercialSyncToChildren, foldCount]
      split_ifs
      · rfl
      · have hfold := foldCount_pres (R := fun a b => structMap b = structMap a)
          (fun d => rfl) (fun hab hbc => hbc.trans hab)
          (fun d p => ihT d p)
          ((childrenOf db pid).filter (fun c => !(pIsCompany db c))) db 0
        exact (ihW _ _ _ false
          (commercialDataOf_structFree db (cpOf db pid))).trans hfold
    exact ⟨hW, hF, hC, hT⟩

/-! ### Depth lemmas -/

theorem depthAux_step_some {db : DB} {f q r : Nat} {p : Partner}
    (hfind : findP db q = some p) (hpar : p.parent = some r) :
    depthAux db (f + 1) q = (depthAux db f r).map (fun d => d + 1) := by
  simp [depthAux, hfind, hpar]

theorem depthAux_lt {db : DB} : ∀ {f q d : Nat}, depthAux db f q = some d → d < f := by
  intro f
  induction f with
  | zero => intro q d h; simp [depthAux] at h
  | succ n ih =>
    intro q d h
    cases hfind : findP db q with
    | none =>
      have h0 : depthAux db (n + 1) q = some 0 := by simp [depthAux, hfind]
      have := Option.some.inj (h0.symm.trans h)
      omega
    | some p =>
      cases hpar : p.parent with
      | none =>
        have h0 : depthAux db (n + 1) q = some 0 := by simp [depthAux, hfind, hpar]
        have := Option.some.inj (h0.symm.trans h)
        omega
      | some r =>
        rw [depthAux_step_some hfind hpar] at h
        cases haux : depthAux db n r with
        | none => rw [haux] at h; exact Option.noConfusion h
        | some d' =>
          rw [haux] at h
          have hd : d' + 1 = d := by simpa using h
          have := ih haux
          omega

theorem depthAux_isSome {db : DB} :
    ∀ {f q : Nat}, chainTerm db f q = true → (depthAux db f q).isSome := by
  intro f
  induction f with
  | zero => intro q hc; simp [chainTerm] at hc
  | succ n ih =>
    intro q hc
    cases hfind : findP db q with
    | none => simp [depthAux, hfind]
    | some p =>
      cases hpar : p.parent with
      | none => simp [depthAux, hfind, hpar]
      | some r =>
        have hc' : chainTerm db n r = true := by
          rw [chainTerm_step_some hfind hpar] at hc; exact hc
        have hsome := ih hc'
        rw [depthAux_step_some hfind hpar]
        cases haux : depthAux db n r with
        | none => rw [haux] at hsome; exact absurd hsome (by simp)
        | some d => simp

theorem depthAux_fuel_congr {db : DB} :
    ∀ {f g q : Nat}, chainTerm db f q = true → f ≤ g →
      depthAux db g q = depthAux db f q := by
  intro f
  induction f with
  | zero => intro g q hc _; simp [chainTerm] at hc
  | succ n ih =>
    intro g q hc hfg
    obtain ⟨m, rfl⟩ := Nat.exists_eq_add_of_le hfg
    cases m with
    | zero => rfl
    | succ m =>
      have hg : n + 1 + (m + 1) = (n + m + 1) + 1 := by omega
      rw [hg]
      cases hfind : findP db q with
      | none => simp [depthAux, hfind]
      | some p =>
        cases hpar : p.parent with
        | none => simp [depthAux, hfind, hpar]
        | some r =>
          have hc' : chainTerm db n r = true := by
            rw [chainTerm_step_some hfind hpar] at hc; exact hc
          have hres := ih hc' (show n ≤ n + m + 1 by omega)
          calc depthAux db (n + m + 1 + 1) q
              = (depthAux db (n + m + 1) r).map (fun d => d + 1) :=
                depthAux_step_some hfind hpar
            _ = (depthAux db n r).map (fun d => d + 1) := by rw [hres]
            _ = depthAux db (n + 1) q := (depthAux_step_some hfind hpar).symm

theorem depthD_le (db : DB) (q : Nat) : depthD db q ≤ db.length := by
  unfold depthD
  cases haux : depthAux db (db.length + 1) q with
  | none => simp
  | some d =>
    have := depthAux_lt haux
    simp
    omega

theorem depthD_child {db : DB} (hn : NodupIds db) (ha : Acyclic db)
    {c : Partner} (hc : c ∈ db) {k : Nat} (hk : c.parent = some k) :
    depthD db c.id = depthD db k + 1 := by
  have hfind := findP_eq_of_mem hn hc
  have hct := acyclic_chainTerm ha hc
  have hck : chainTerm db db.length k = true := by
    rw [chainTerm_step_some hfind hk] at hct; exact hct
  have hsome := depthAux_isSome hck
  cases haux : depthAux db db.length k with
  | none => rw [haux] at hsome; simp at hsome
  | some dk =>
    have h1 : depthAux db (db.length + 1) c.id = some (dk + 1) := by
      simp [depthAux, hfind, hk, haux]
    have h2 : depthAux db (db.length + 1) k = some dk :=
      (depthAux_fuel_congr hck (by omega)).trans haux
    unfold depthD
    rw [h1, h2]
    rfl

/-- The resolved commercial partner sits at most as deep as the record. -/
theorem depthD_cp_le_aux {db : DB} (hn : NodupIds db) (ha : Acyclic db) :
    ∀ {f q : Nat} {p : Partner}, findP db q = some p → chainTerm db f q = true →
      depthD db (resolveCP db f q) ≤ depthD db q := by
  intro f
  induction f with
  | zero => intro q p _ hc; simp [chainTerm] at hc
  | succ n ih =>
    intro q p hfind hc
    by_cases hco : p.isCompany
    · rw [resolveCP_stop hfind (Or.inl hco)]
    · cases hpar : p.parent with
      | none => rw [resolveCP_stop hfind (Or.inr hpar)]
      | some r =>
        rw [resolveCP_step_some hfind hco hpar]
        have hc' : chainTerm db n r = true := by
          rw [chainTerm_step_some hfind hpar] at hc; exact hc
        have hdq : depthD db q = depthD db r + 1 := by
          have hqid : p.id = q := (findP_mem hfind).2
          have := depthD_child hn ha (findP_mem hfind).1 hpar
          rw [hqid] at this
          exact this
        cases hfr : findP db r with
        | none =>
          have : resolveCP db n r = r := by
            cases n with
            | zero => rfl
            | succ m => simp [resolveCP, hfr]
          rw [this]
          omega
        | some pr =>
          have := ih hfr hc'
          omega

theorem depthD_cp_le {db : DB} (hn : NodupIds db) (ha : Acyclic db)
    {p : Partner} (hp : p ∈ db) : depthD db (cpOf db p.id) ≤ depthD db p.id :=
  depthD_cp_le_aux hn ha (findP_eq_of_mem hn hp) (acyclic_chainTerm ha hp)

/-! ### Children and resolution -/

theorem childrenOf_mem {db : DB} {pid cid : Nat} (h : cid ∈ childrenOf db pid) :
    ∃ r, r ∈ db ∧ r.id = cid ∧ r.parent = some pid ∧ r.active = true := by
  unfold childrenOf at h
  obtain ⟨r, hr, hrid⟩ := List.mem_map.mp h
  have hmem := List.mem_filter.mp hr
  have hpred := hmem.2
  simp only [Bool.and_eq_true, beq_iff_eq] at hpred
  exact ⟨r, hmem.1, hrid, hpred.2, hpred.1⟩

theorem contactChildren_mem {db : DB} {pid cid : Nat}
    (h : cid ∈ contactChildren db pid) :
    ∃ r, r ∈ db ∧ r.id = cid ∧ r.parent = some pid ∧ r.active = true ∧
      r.ptype = "contact" := by
  unfold contactChildren at h
  obtain ⟨r, hr, hrid⟩ := List.mem_map.mp h
  have hmem := List.mem_filter.mp hr
  have hpred := hmem.2
  simp only [Bool.and_eq_true, beq_iff_eq] at hpred
  exact ⟨r, hmem.1, hrid, hpred.1.2, hpred.1.1, hpred.2⟩

theorem cpOf_child {db : DB} (hn : NodupIds db) (ha : Acyclic db)
    {r : Partner} (hr : r ∈ db) (hco : ¬r.isCompany = true) {k : Nat}
    (hk : r.parent = some k) : cpOf db r.id = cpOf db k := by
  have hfind := findP_eq_of_mem hn hr
  have hct := acyclic_chainTerm ha hr
  have hck : chainTerm db db.length k = true := by
    rw [chainTerm_step_some hfind hk] at hct; exact hct
  calc cpOf db r.id = resolveCP db db.length k := resolveCP_step_some hfind hco hk
    _ = cpOf db k := (resolveCP_fuel_congr hck (by omega)).symm

/-- With the commercial partner derived on read, a non-company child always
resolves to the same commercial partner as its parent, so the re-push
trigger of FieldsSync (partner.go:527-536) never fires. -/
theorem personChildren_dead {db : DB} (hn : NodupIds db) (ha : Acyclic db)
    (pid : Nat) :
    (((childrenOf db pid).filter (fun c => !(pIsCompany db c))).any
      (fun c => !(cpOf db c == cpOf db pid))) = false := by
  rw [List.any_eq_false]
  intro c hcmem
  have hfil := List.mem_filter.mp hcmem
  obtain ⟨r, hrdb, hrid, hrpar, _⟩ := childrenOf_mem hfil.1
  have hfind : findP db c = some r := hrid ▸ findP_eq_of_mem hn hrdb
  have hco : ¬r.isCompany = true := by
    have h2 := hfil.2
    unfold pIsCompany at h2
    rw [hfind] at h2
    simpa using h2
  have := cpOf_child hn ha hrdb hco hrpar
  rw [hrid] at this
  simp [this]

/-- Invariants carried through a counting fold. -/
theorem foldCount_inv {f : DB → Nat → DB × Nat} {Q : DB → Prop} :
    ∀ l : List Nat, (∀ d p, p ∈ l → Q d → Q (f d p).1) →
      ∀ (db : DB) (k : Nat), Q db →
        Q ((l.foldl (fun acc pid =>
          ((f acc.1 pid).1, acc.2 + (f acc.1 pid).2)) (db, k)).1) := by
  intro l
  induction l with
  | nil => intro _ db k hq; exact hq
  | cons p rest ih =>
    intro hstep db k hq
    simp only [List.foldl_cons]
    exact ih (fun d x hx hd => hstep d x (List.mem_cons_of_mem p hx) hd)
      (f db p).1 _ (hstep db p (List.mem_cons_self p rest) hq)

/-- On a record that is not its own commercial partner, a synchronization
whose vals carry neither Parent nor address fields reduces to the upstream
address pull of step 1b: steps 1a, 2a and 2b have false triggers and the
re-push trigger never fires. -/
theorem fieldsSync_quiet {n : Nat} {db : DB} {pid : Nat} {vals : PartnerData}
    (hn : NodupIds db) (ha : Acyclic db)
    (hvp : vals.parent = none) (hva : hasAddrKeys vals = false)
    (hcp : (pid == cpOf db pid) = false) :
    fieldsSync (n + 1) db pid vals =
      (if (parentOf db pid).isSome && (ptypeOf db pid == "contact")
       then updateAddress db [pid] (onchangeParent db pid) else db, 1) := by
  simp only [fieldsSync, hvp, Option.isSome_none, Bool.false_eq_true, if_false]
  set db2 := if (parentOf db pid).isSome && (ptypeOf db pid == "contact")
             then updateAddress db [pid] (onchangeParent db pid) else db with hdb2def
  have hstruct2 : structMap db2 = structMap db := by
    rw [hdb2def]
    split
    · exact structMap_updateAddress db [pid] (onchangeParent db pid)
    · rfl
  by_cases hch : childrenOf db2 pid = []
  · simp [hch]
  · rw [if_neg hch]
    have h3 : ((pid == cpOf db2 pid) && anyCommNonzero db2 pid) = false := by
      rw [cpOf_struct hstruct2, hcp, Bool.false_and]
    have h4 := personChildren_dead ((nodupIds_struct hstruct2).mpr hn)
      ((acyclic_struct hstruct2).mpr ha) pid
    simp only [h3, h4, Bool.false_eq_true, if_false, hva]

/-! ### Frame: synchronization from a record touches only the record and
records strictly deeper in its subtree. -/

theorem frame_sync : ∀ fuel : Nat,
    (∀ db ids vals q r, NodupIds db → Wf db → Acyclic db → StructFree vals →
      findP db q = some r → (∀ i, i ∈ ids → depthD db q < depthD db i) →
      findP (partnerWrite fuel db ids vals false).1 q = some r)
  ∧ (∀ db pid vals q r, NodupIds db → Wf db → Acyclic db →
      findP db q = some r → depthD db q < depthD db pid →
      findP (fieldsSync fuel db pid vals).1 q = some r)
  ∧ (∀ db pid q r, NodupIds db → Wf db → Acyclic db →
      findP db q = some r → depthD db q < depthD db pid →
      findP (commercialSyncFromCompany fuel db pid).1 q = some r)
  ∧ (∀ db pid q r, NodupIds db → Wf db → Acyclic db →
      findP db q = some r → depthD db q ≤ depthD db pid →
      findP (commercialSyncToChildren fuel db pid).1 q = some r) := by
  intro fuel
  induction fuel with
  | zero =>
    exact ⟨fun db ids vals q r _ _ _ _ hq _ => hq,
      fun db pid vals q r _ _ _ hq _ => hq,
      fun db pid q r _ _ _ hq _ => hq,
      fun db pid q r _ _ _ hq _ => hq⟩
  | succ n ih =>
    obtain ⟨ihW, ihF, ihC, ihT⟩ := ih
    have hW : ∀ db ids vals q r, NodupIds db → Wf db → Acyclic db →
        StructFree vals → findP db q = some r →
        (∀ i, i ∈ ids → depthD db q < depthD db i) →
        findP (partnerWrite (n + 1) db ids vals false).1 q = some r := by
      intro db ids vals q r hn hw ha hv hq hdeep
      have hv' : (if vals.parent.isSome
          then { vals with companyName := some "" } else vals) = vals := by
        rw [hv.2.1]; rfl
      simp only [partnerWrite, Bool.false_eq_true, if_false, hv', foldCount]
      have hqnot : ids.contains q = false := by
        by_cases hmem : q ∈ ids
        · exact absurd (hdeep q hmem) (lt_irrefl _)
        · simpa using hmem
      have hq1 : findP (writeIds db ids vals) q = some r :=
        (findP_writeIds_not_mem hqnot).trans hq
      have hQ := foldCount_inv (f := fun d p => fieldsSync n d p vals)
        (Q := fun d => structMap d = structMap db ∧ findP d q = some r) ids
        (fun d p hp hQd => by
          refine ⟨((structMap_sync n).2.1 d p vals).trans hQd.1, ?_⟩
          refine ihF d p vals q r ((nodupIds_struct hQd.1).mpr hn)
            ((wf_struct hQd.1).mpr hw) ((acyclic_struct hQd.1).mpr ha) hQd.2 ?_
          rw [depthD_struct hQd.1, depthD_struct hQd.1]
          exact hdeep p hp)
        (writeIds db ids vals) 0 ⟨structMap_writeIds hv db ids, hq1⟩
      exact hQ.2
    have hF : ∀ db pid vals q r, NodupIds db → Wf db → Acyclic db →
        findP db q = some r → depthD db q < depthD db pid →
        findP (fieldsSync (n + 1) db pid vals).1 q = some r := by
      intro db pid vals q r hn hw ha hq hdeep
      simp only [fieldsSync]
      have hqpid : q ≠ pid := fun he => absurd (he ▸ hdeep) (lt_irrefl _)
      set s1A := if vals.parent.isSome = true
        then commercialSyncFromCompany n db pid else (db, 0) with hs1def
      have hA1 : structMap s1A.1 = structMap db ∧ findP s1A.1 q = some r := by
        rw [hs1def]
        split
        · exact ⟨(structMap_sync n).2.2.1 db pid, ihC db pid q r hn hw ha hq hdeep⟩
        · exact ⟨rfl, hq⟩
      set db2 := if (parentOf s1A.1 pid).isSome && (ptypeOf s1A.1 pid == "contact")
        then updateAddress s1A.1 [pid] (onchangeParent s1A.1 pid) else s1A.1
        with hdb2def
      have hA2 : structMap db2 = structMap db ∧ findP db2 q = some r := by
        rw [hdb2def]
        split
        · refine ⟨(structMap_updateAddress _ _ _).trans hA1.1, ?_⟩
          unfold updateAddress
          split
          · exact (findP_writeIds_not_mem (by simp [hqpid])).trans hA1.2
          · exact hA1.2
        · exact hA1
      by_cases hch : childrenOf db2 pid = []
      · rw [if_pos hch]
        exact hA2.2
      · rw [if_neg hch]
        set s3A := if (pid == cpOf db2 pid) && anyCommNonzero db2 pid
          then commercialSyncToChildren n db2 pid else (db2, 0) with hs3def
        have hA3 : structMap s3A.1 = structMap db ∧ findP s3A.1 q = some r := by
          rw [hs3def]
          split
          · refine ⟨((structMap_sync n).2.2.2 db2 pid).trans hA2.1, ?_⟩
            refine ihT db2 pid q r ((nodupIds_struct hA2.1).mpr hn)
              ((wf_struct hA2.1).mpr hw) ((acyclic_struct hA2.1).mpr ha) hA2.2 ?_
            rw [depthD_struct hA2.1, depthD_struct hA2.1]
            exact le_of_lt hdeep
          · exact hA2
        set s4A := if ((childrenOf s3A.1 pid).filter
              (fun c => !(pIsCompany s3A.1 c))).any
              (fun c => !(cpOf s3A.1 c == cpOf s3A.1 pid))
          then commercialSyncToChildren n s3A.1 pid else (s3A.1, 0) with hs4def
        have hA4 : structMap s4A.1 = structMap db ∧ findP s4A.1 q = some r := by
          rw [hs4def]
          split
          · refine ⟨((structMap_sync n).2.2.2 s3A.1 pid).trans hA3.1, ?_⟩
            refine ihT s3A.1 pid q r ((nodupIds_struct hA3.1).mpr hn)
              ((wf_struct hA3.1).mpr hw) ((acyclic_struct hA3.1).mpr ha) hA3.2 ?_
            rw [depthD_struct hA3.1, depthD_struct hA3.1]
            exact le_of_lt hdeep
          · exact hA3
        show findP (if hasAddrKeys vals = true
          then updateAddress s4A.1 (contactChildren s4A.1 pid) vals else s4A.1) q
          = some r
        unfold updateAddress
        split_ifs with h5
        · -- step 2b applies: updateAddress on the contact children
          refine (findP_writeIds_not_mem ?_).trans hA4.2
          by_cases hqc : q ∈ contactChildren s4A.1 pid
          · exfalso
            obtain ⟨rr, hrdb, hrid, hrpar, _, _⟩ := contactChildren_mem hqc
            have hnd4 : NodupIds s4A.1 := (nodupIds_struct hA4.1).mpr hn
            have had4 : Acyclic s4A.1 := (acyclic_struct hA4.1).mpr ha
            have hdc : depthD s4A.1 q = depthD s4A.1 pid + 1 := by
              have := depthD_child hnd4 had4 hrdb hrpar
              rw [hrid] at this
              exact this
            rw [depthD_struct hA4.1, depthD_struct hA4.1] at hdc
            omega
          · simpa using hqc
        · exact hA4.2
    have hC : ∀ db pid q r, NodupIds db → Wf db → Acyclic db →
        findP db q = some r → depthD db q < depthD db pid →
        findP (commercialSyncFromCompany (n + 1) db pid).1 q = some r := by
      intro db pid q r hn hw ha hq hdeep
      simp only [commercialSyncFromCompany]
      split
      · exact hq
      · refine ihW db [pid] _ q r hn hw ha
          (commercialDataOf_structFree db (cpOf db pid)) hq ?_
        intro i hi
        have : i = pid := by simpa using hi
        rw [this]
        exact hdeep
    have hT : ∀ db pid q r, NodupIds db → Wf db → Acyclic db →
        findP db q = some r → depthD db q ≤ depthD db pid →
        findP (commercialSyncToChildren (n + 1) db pid).1 q = some r := by
      intro db pid q r hn hw ha hq hdeep
      simp only [commercialSyncToChildren, foldCount]
      split
      · exact hq
      · have hkdepth : ∀ i ∈ (childrenOf db pid).filter
            (fun c => !(pIsCompany db c)), depthD db i = depthD db pid + 1 := by
          intro i hi
          obtain ⟨rr, hrdb, hrid, hrpar, _⟩ := childrenOf_mem (List.mem_filter.mp hi).1
          have := depthD_child hn ha hrdb hrpar
          rw [hrid] at this
          exact this
        have hQ := foldCount_inv (f := fun d c => commercialSyncToChildren n d c)
          (Q := fun d => structMap d = structMap db ∧ findP d q = some r)
          ((childrenOf db pid).filter (fun c => !(pIsCompany db c)))
          (fun d p hp hQd => by
            refine ⟨((structMap_sync n).2.2.2 d p).trans hQd.1, ?_⟩
            refine ihT d p q r ((nodupIds_struct hQd.1).mpr hn)
              ((wf_struct hQd.1).mpr hw) ((acyclic_struct hQd.1).mpr ha) hQd.2 ?_
            rw [depthD_struct hQd.1, depthD_struct hQd.1, hkdepth p hp]
            omega)
          db 0 ⟨rfl, hq⟩
        refine ihW _ _ _ q r ((nodupIds_struct hQ.1).mpr hn)
          ((wf_struct hQ.1).mpr hw) ((acyclic_struct hQ.1).mpr ha)
          (commercialDataOf_structFree db (cpOf db pid)) hQ.2 ?_
        intro i hi
        rw [depthD_struct hQ.1, depthD_struct hQ.1, hkdepth i hi]
        omega
    exact ⟨hW, hF, hC, hT⟩

/-! ### Commercial-field value lemmas -/

theorem vat_updateAddress (db : DB) (ids : List Nat) (v : PartnerData) (q : Nat) :
    vatOf (updateAddress db ids v) q = vatOf db q ∧
      creditOf (updateAddress db ids v) q = creditOf db q := by
  unfold updateAddress
  split
  · unfold vatOf creditOf
    rw [findP_writeIds]
    cases findP db q with
    | none => exact ⟨rfl, rfl⟩
    | some p =>
      refine ⟨?_, ?_⟩
      · show (if ids.contains p.id = true then applyData p (addrSubset v) else p).vat
          = p.vat
        split <;> rfl
      · show (if ids.contains p.id = true
            then applyData p (addrSubset v) else p).creditLimit = p.creditLimit
        split <;> rfl
  · exact ⟨rfl, rfl⟩

theorem commercialDataOf_vals (db : DB) (x : Nat) :
    (commercialDataOf db x).vat = some (vatOf db x) ∧
      (commercialDataOf db x).creditLimit = some (creditOf db x) ∧
      (commercialDataOf db x).parent = none ∧
      hasAddrKeys (commercialDataOf db x) = false := by
  unfold commercialDataOf vatOf creditOf
  cases findP db x with
  | none => exact ⟨rfl, rfl, rfl, rfl⟩
  | some p => exact ⟨rfl, rfl, rfl, rfl⟩

theorem commercialDataOf_noAddr (db : DB) (x : Nat) :
    (commercialDataOf db x).street = none ∧ (commercialDataOf db x).street2 = none ∧
    (commercialDataOf db x).zip = none ∧ (commercialDataOf db x).city = none ∧
    (commercialDataOf db x).state = none ∧ (commercialDataOf db x).country = none := by
  unfold commercialDataOf
  split <;> exact ⟨rfl, rfl, rfl, rfl, rfl, rfl⟩

theorem vat_writeIds_mem {db : DB} {ids : List Nat} {v : PartnerData} {q : Nat}
    {a : String} {b : Int} (hq : q ∈ ids) (hsome : (findP db q).isSome)
    (hva : v.vat = some a) (hvb : v.creditLimit = some b) :
    vatOf (writeIds db ids v) q = a ∧ creditOf (writeIds db ids v) q = b := by
  obtain ⟨p, hfind⟩ := Option.isSome_iff_exists.mp hsome
  have hid : p.id = q := (findP_mem hfind).2
  have hc : ids.contains p.id = true := by
    rw [hid]; simpa using hq
  unfold vatOf creditOf
  rw [findP_writeIds, hfind]
  simp [applyData, hva, hvb, hid, hq]

/-- A quiet synchronization changes no commercial field of any record. -/
theorem fieldsSync_quiet_comm {m : Nat} {db : DB} {pid : Nat} {vals : PartnerData}
    (hn : NodupIds db) (ha : Acyclic db)
    (hvp : vals.parent = none) (hva : hasAddrKeys vals = false)
    (hcp : (pid == cpOf db pid) = false) (q : Nat) :
    vatOf (fieldsSync m db pid vals).1 q = vatOf db q ∧
      creditOf (fieldsSync m db pid vals).1 q = creditOf db q := by
  cases m with
  | zero => exact ⟨rfl, rfl⟩
  | succ n =>
    rw [fieldsSync_quiet hn ha hvp hva hcp]
    split
    · exact vat_updateAddress db [pid] (onchangeParent db pid) q
    · exact ⟨rfl, rfl⟩

theorem commercialSyncFromCompany_self {fuel : Nat} {db : DB} {pid : Nat}
    (h : (pid == cpOf db pid) = true) :
    commercialSyncFromCompany fuel db pid = (db, 0) := by
  cases fuel with
  | zero => rfl
  | succ n => simp [commercialSyncFromCompany, h]

theorem reach_succ {db : DB} {f pid x : Nat} :
    x ∈ reach db (f + 1) pid ↔
      (x ∈ (childrenOf db pid).filter (fun c => !(pIsCompany db c)) ∨
       ∃ k ∈ (childrenOf db pid).filter (fun c => !(pIsCompany db c)),
         x ∈ reach db f k) := by
  simp [reach]

theorem reach_mono {db : DB} :
    ∀ {f g x pid : Nat}, f ≤ g → x ∈ reach db f pid → x ∈ reach db g pid := by
  intro f
  induction f with
  | zero => intro g x pid _ hx; simp [reach] at hx
  | succ n ih =>
    intro g x pid hfg hx
    obtain ⟨m, rfl⟩ := Nat.exists_eq_add_of_le hfg
    cases m with
    | zero => exact hx
    | succ m =>
      have hg : n + 1 + (m + 1) = (n + m + 1) + 1 := by omega
      rw [hg]
      rcases reach_succ.mp hx with hx | ⟨k, hk, hxk⟩
      · exact reach_succ.mpr (Or.inl hx)
      · exact reach_succ.mpr (Or.inr ⟨k, hk, ih (by omega) hxk⟩)

theorem kid_facts {db : DB} {pid c : Nat} (hn : NodupIds db)
    (h : c ∈ (childrenOf db pid).filter (fun x => !(pIsCompany db x))) :
    ∃ rc, findP db c = some rc ∧ rc.parent = some pid ∧
      rc.isCompany = false ∧ rc.active = true := by
  have hfil := List.mem_filter.mp h
  obtain ⟨rc, hrdb, hrid, hrpar, hract⟩ := childrenOf_mem hfil.1
  have hfind : findP db c = some rc := hrid ▸ findP_eq_of_mem hn hrdb
  have hco : rc.isCompany = false := by
    have h2 := hfil.2
    unfold pIsCompany at h2
    rw [hfind] at h2
    simpa using h2
  exact ⟨rc, hfind, hrpar, hco, hract⟩

/-- The value behaviour of CommercialSyncToChildren: every record either
keeps its commercial fields or receives those of the commercial partner, and
every non-company descendant reachable without crossing a boundary receives
them. -/
theorem stc_values : ∀ fuel : Nat, ∀ (db : DB) (pid : Nat),
    NodupIds db → Wf db → Acyclic db →
    db.length + 3 ≤ fuel + depthD db pid →
    (∀ q, (vatOf (commercialSyncToChildren fuel db pid).1 q = vatOf db q ∧
           creditOf (commercialSyncToChildren fuel db pid).1 q = creditOf db q) ∨
          (vatOf (commercialSyncToChildren fuel db pid).1 q
             = vatOf db (cpOf db pid) ∧
           creditOf (commercialSyncToChildren fuel db pid).1 q
             = creditOf db (cpOf db pid)))
  ∧ (∀ x, x ∈ reachOf db pid →
       vatOf (commercialSyncToChildren fuel db pid).1 x = vatOf db (cpOf db pid) ∧
       creditOf (commercialSyncToChildren fuel db pid).1 x
         = creditOf db (cpOf db pid)) := by
  intro fuel
  induction fuel with
  | zero =>
    intro db pid _ _ _ hfuel
    exact absurd hfuel (by have := depthD_le db pid; omega)
  | succ f ihfuel =>
    intro db pid hn hw ha hfuel
    simp only [commercialSyncToChildren, foldCount]
    by_cases hk : (childrenOf db pid).filter (fun c => !(pIsCompany db c)) = []
    · rw [if_pos hk]
      refine ⟨fun q => Or.inl ⟨rfl, rfl⟩, fun x hx => ?_⟩
      exfalso
      rcases reach_succ.mp hx with h | ⟨k, hkm, _⟩
      · rw [hk] at h; simp at h
      · rw [hk] at hkm; simp at hkm
    · rw [if_neg hk]
      obtain ⟨c0, hc0⟩ := List.exists_mem_of_ne_nil _ hk
      obtain ⟨rc0, hrc0find, hrc0par, _, _⟩ := kid_facts hn hc0
      obtain ⟨prec, hpfind⟩ := wf_parent_found hw (findP_mem hrc0find).1 hrc0par
      have hct : chainTerm db (db.length + 1) pid = true := by
        have := acyclic_chainTerm ha (findP_mem hpfind).1
        rwa [(findP_mem hpfind).2] at this
      obtain ⟨cprec, hcpfind0, _⟩ := cpOf_terminal hw hpfind hct
      have hcpfind : findP db (cpOf db pid) = some cprec := hcpfind0
      have hdkid : ∀ c ∈ (childrenOf db pid).filter (fun c => !(pIsCompany db c)),
          depthD db c = depthD db pid + 1 := by
        intro c hc
        obtain ⟨rc, hf2, hp2, _, _⟩ := kid_facts hn hc
        have := depthD_child hn ha (findP_mem hf2).1 hp2
        rwa [(findP_mem hf2).2] at this
      have hcpkid : ∀ c ∈ (childrenOf db pid).filter (fun c => !(pIsCompany db c)),
          cpOf db c = cpOf db pid := by
        intro c hc
        obtain ⟨rc, hf2, hp2, hco2, _⟩ := kid_facts hn hc
        have := cpOf_child hn ha (findP_mem hf2).1 (by rw [hco2]; simp) hp2
        rwa [(findP_mem hf2).2] at this
      have hdcp : depthD db (cpOf db pid) ≤ depthD db pid := by
        have := depthD_cp_le hn ha (findP_mem hpfind).1
        rwa [(findP_mem hpfind).2] at this
      have hkidnecp : ∀ c ∈ (childrenOf db pid).filter (fun c => !(pIsCompany db c)),
          (c == cpOf db pid) = false := by
        intro c hc
        have h1 := hdkid c hc
        by_cases he : c = cpOf db pid
        · rw [he] at h1; omega
        · simpa using he
      have hf2 : 2 ≤ f := by have := depthD_le db pid; omega
      obtain ⟨g, rfl⟩ : ∃ g, f = g + 1 := ⟨f - 1, by omega⟩
      -- the deeper-levels fold
      have hfold : ∀ l : List Nat,
          (∀ c ∈ l, c ∈ (childrenOf db pid).filter (fun c => !(pIsCompany db c))) →
          ∀ (d : DB) (k : Nat), structMap d = structMap db →
          findP d (cpOf db pid) = some cprec →
          (structMap (l.foldl (fun acc c =>
              ((commercialSyncToChildren (g + 1) acc.1 c).1,
               acc.2 + (commercialSyncToChildren (g + 1) acc.1 c).2)) (d, k)).1
            = structMap db) ∧
          (findP (l.foldl (fun acc c =>
              ((commercialSyncToChildren (g + 1) acc.1 c).1,
               acc.2 + (commercialSyncToChildren (g + 1) acc.1 c).2)) (d, k)).1
              (cpOf db pid) = some cprec) ∧
          (∀ q, (vatOf (l.foldl (fun acc c =>
              ((commercialSyncToChildren (g + 1) acc.1 c).1,
               acc.2 + (commercialSyncToChildren (g + 1) acc.1 c).2)) (d, k)).1 q
                = vatOf d q ∧
              creditOf (l.foldl (fun acc c =>
              ((commercialSyncToChildren (g + 1) acc.1 c).1,
               acc.2 + (commercialSyncToChildren (g + 1) acc.1 c).2)) (d, k)).1 q
                = creditOf d q) ∨
            (vatOf (l.foldl (fun acc c =>
              ((commercialSyncToChildren (g + 1) acc.1 c).1,
               acc.2 + (commercialSyncToChildren (g + 1) acc.1 c).2)) (d, k)).1 q
                = vatOf db (cpOf db pid) ∧
              creditOf (l.foldl (fun acc c =>
              ((commercialSyncToChildren (g + 1) acc.1 c).1,
               acc.2 + (commercialSyncToChildren (g + 1) acc.1 c).2)) (d, k)).1 q
                = creditOf db (cpOf db pid))) ∧
          (∀ c ∈ l, ∀ x ∈ reachOf db c,
            vatOf (l.foldl (fun acc c =>
              ((commercialSyncToChildren (g + 1) acc.1 c).1,
               acc.2 + (commercialSyncToChildren (g + 1) acc.1 c).2)) (d, k)).1 x
              = vatOf db (cpOf db pid) ∧
            creditOf (l.foldl (fun acc c =>
              ((commercialSyncToChildren (g + 1) acc.1 c).1,
               acc.2 + (commercialSyncToChildren (g + 1) acc.1 c).2)) (d, k)).1 x
              = creditOf db (cpOf db pid)) := by
        intro l
        induction l with
        | nil =>
          intro _ d k hs hcp
          exact ⟨hs, hcp, fun q => Or.inl ⟨rfl, rfl⟩, fun c hc => absurd hc (by simp)⟩
        | cons c rest ihl =>
          intro hmem d k hs hcp
          have hc := hmem c (List.mem_cons_self c rest)
          have hnd : NodupIds d := (nodupIds_struct hs).mpr hn
          have hwd : Wf d := (wf_struct hs).mpr hw
          have had : Acyclic d := (acyclic_struct hs).mpr ha
          -- target of the recursive push on c equals the target at pid
          have hcpd : cpOf d c = cpOf db pid := by
            rw [cpOf_struct hs]; exact hcpkid c hc
          have hvd : vatOf d (cpOf d c) = vatOf db (cpOf db pid) ∧
              creditOf d (cpOf d c) = creditOf db (cpOf db pid) := by
            rw [hcpd]
            unfold vatOf creditOf
            rw [hcp, hcpfind]
            exact ⟨rfl, rfl⟩
          have hfueld : d.length + 3 ≤ (g + 1) + depthD d c := by
            rw [structMap_length hs, depthD_struct hs, hdkid c hc]
            omega
          have hstep := ihfuel d c hnd hwd had hfueld
          have hstepstruct : structMap (commercialSyncToChildren (g + 1) d c).1
              = structMap db := ((structMap_sync (g + 1)).2.2.2 d c).trans hs
          have hstepcp : findP (commercialSyncToChildren (g + 1) d c).1
              (cpOf db pid) = some cprec := by
            refine (frame_sync (g + 1)).2.2.2 d c (cpOf db pid) cprec hnd hwd had hcp ?_
            rw [depthD_struct hs, depthD_struct hs, hdkid c hc]
            omega
          have hrest := ihl (fun x hx => hmem x (List.mem_cons_of_mem c hx))
            (commercialSyncToChildren (g + 1) d c).1
            (k + (commercialSyncToChildren (g + 1) d c).2) hstepstruct hstepcp
          simp only [List.foldl_cons]
          refine ⟨hrest.1, hrest.2.1, ?_, ?_⟩
          · intro q
            rcases hrest.2.2.1 q with ⟨hv1, hc1⟩ | h1
            · rcases hstep.1 q with ⟨hv2, hc2⟩ | ⟨hv2, hc2⟩
              · exact Or.inl ⟨hv1.trans hv2, hc1.trans hc2⟩
              · refine Or.inr ⟨hv1.trans ?_, hc1.trans ?_⟩
                · rw [hv2, hvd.1]
                · rw [hc2, hvd.2]
            · exact Or.inr h1
          · intro c' hc' x hx
            rcases List.mem_cons.mp hc' with rfl | hc'rest
            · -- x was pushed by the step on c'; later steps keep the target
              have hxd : x ∈ reachOf d c' := by
                unfold reachOf
                rw [structMap_length hs, reach_struct hs]
                exact hx
              have hxv := hstep.2 x hxd
              rcases hrest.2.2.1 x with ⟨hv1, hc1⟩ | h1
              · refine ⟨hv1.trans ?_, hc1.trans ?_⟩
                · rw [hxv.1, hvd.1]
                · rw [hxv.2, hvd.2]
              · exact h1
            · exact hrest.2.2.2 c' hc'rest x hx
      have hfoldall := hfold
        ((childrenOf db pid).filter (fun c => !(pIsCompany db c)))
        (fun c hc => hc) db 0 rfl hcpfind
      -- the batch write at this level, through the untagged Write
      have hpv := commercialDataOf_vals db (cpOf db pid)
      set dN := (((childrenOf db pid).filter (fun c => !(pIsCompany db c))).foldl
        (fun acc c => ((commercialSyncToChildren (g + 1) acc.1 c).1,
          acc.2 + (commercialSyncToChildren (g + 1) acc.1 c).2)) (db, 0)).1
        with hdNdef
      simp only [partnerWrite, hpv.2.2.1, Option.isSome_none, Bool.false_eq_true,
        if_false, foldCount]
      have hsN : structMap dN = structMap db := hfoldall.1
      have hcpN : findP dN (cpOf db pid) = some cprec := hfoldall.2.1
      set dW := writeIds dN ((childrenOf db pid).filter (fun c => !(pIsCompany db c)))
        (commercialDataOf db (cpOf db pid)) with hdWdef
      have hsW : structMap dW = structMap db :=
        (structMap_writeIds (commercialDataOf_structFree db (cpOf db pid))
          dN _).trans hsN
      have hWkids : ∀ q ∈ (childrenOf db pid).filter (fun c => !(pIsCompany db c)),
          vatOf dW q = vatOf db (cpOf db pid) ∧
          creditOf dW q = creditOf db (cpOf db pid) := by
        intro q hq
        obtain ⟨rc, hf, _, _, _⟩ := kid_facts hn hq
        have hsome : (findP dN q).isSome := by
          rw [findP_isSome_struct hsN, hf]; rfl
        exact vat_writeIds_mem hq hsome hpv.1 hpv.2.1
      have hWother : ∀ q, q ∉ (childrenOf db pid).filter (fun c => !(pIsCompany db c)) →
          vatOf dW q = vatOf dN q ∧ creditOf dW q = creditOf dN q := by
        intro q hq
        unfold vatOf creditOf
        rw [hdWdef, findP_writeIds_not_mem (by simpa using hq)]
        exact ⟨rfl, rfl⟩
      have hQfold := foldCount_inv
        (f := fun d p => fieldsSync g d p (commercialDataOf db (cpOf db pid)))
        (Q := fun d => structMap d = structMap db ∧
          ∀ q, vatOf d q = vatOf dW q ∧ creditOf d q = creditOf dW q)
        ((childrenOf db pid).filter (fun c => !(pIsCompany db c)))
        (fun d p hp hQd => by
          have hnd : NodupIds d := (nodupIds_struct hQd.1).mpr hn
          have had : Acyclic d := (acyclic_struct hQd.1).mpr ha
          have hqc : (p == cpOf d p) = false := by
            rw [cpOf_struct hQd.1, hcpkid p hp]
            exact hkidnecp p hp
          refine ⟨((structMap_sync g).2.1 d p _).trans hQd.1, fun q => ?_⟩
          have hcs := fieldsSync_quiet_comm (m := g) hnd had
            hpv.2.2.1 hpv.2.2.2 hqc q
          exact ⟨hcs.1.trans (hQd.2 q).1, hcs.2.trans (hQd.2 q).2⟩)
        dW 0 ⟨hsW, fun q => ⟨rfl, rfl⟩⟩
      constructor
      · intro q
        by_cases hqk : q ∈ (childrenOf db pid).filter (fun c => !(pIsCompany db c))
        · exact Or.inr ⟨(hQfold.2 q).1.trans (hWkids q hqk).1,
            (hQfold.2 q).2.trans (hWkids q hqk).2⟩
        · rcases hfoldall.2.2.1 q with ⟨hv1, hc1⟩ | ⟨hv1, hc1⟩
          · exact Or.inl ⟨(hQfold.2 q).1.trans ((hWother q hqk).1.trans hv1),
              (hQfold.2 q).2.trans ((hWother q hqk).2.trans hc1)⟩
          · exact Or.inr ⟨(hQfold.2 q).1.trans ((hWother q hqk).1.trans hv1),
              (hQfold.2 q).2.trans ((hWother q hqk).2.trans hc1)⟩
      · intro x hx
        rcases reach_succ.mp hx with hxk | ⟨k', hk', hxk⟩
        · exact ⟨(hQfold.2 x).1.trans (hWkids x hxk).1,
            (hQfold.2 x).2.trans (hWkids x hxk).2⟩
        · have hxr : x ∈ reachOf db k' := reach_mono (by omega) hxk
          have hdn := hfoldall.2.2.2 k' hk' x hxr
          by_cases hxkid : x ∈ (childrenOf db pid).filter (fun c => !(pIsCompany db c))
          · exact ⟨(hQfold.2 x).1.trans (hWkids x hxkid).1,
              (hQfold.2 x).2.trans (hWkids x hxkid).2⟩
          · exact ⟨(hQfold.2 x).1.trans ((hWother x hxkid).1.trans hdn.1),
              (hQfold.2 x).2.trans ((hWother x hxkid).2.trans hdn.2)⟩

/-! ### C2: downstream commercial propagation -/

/-- C2: after FieldsSync (partner.go:500-545) runs on a boundary entity b
(a record equal to its own resolved commercial partner) that has at least one
non-empty commercial field, every non-company descendant reachable from b
without crossing another company boundary carries b's commercial fields
(VAT, CreditLimit), via CommercialSyncToChildren (partner.go:483-498). -/
theorem fieldsSync_commercial_propagation (fuel : Nat) (db : DB) (b : Nat)
    (vals : PartnerData) (hn : NodupIds db) (hw : Wf db) (ha : Acyclic db)
    (hb : (b == cpOf db b) = true) (hcomm : anyCommNonzero db b = true)
    (hfuel : db.length + 4 ≤ fuel) :
    ∀ d, d ∈ reachOf db b →
      vatOf (fieldsSync fuel db b vals).1 d = vatOf (fieldsSync fuel db b vals).1 b ∧
      creditOf (fieldsSync fuel db b vals).1 d
        = creditOf (fieldsSync fuel db b vals).1 b := by
  obtain ⟨n, rfl⟩ : ∃ n, fuel = n + 1 := ⟨fuel - 1, by omega⟩
  simp only [fieldsSync]
  have hs1 : (if vals.parent.isSome = true
      then commercialSyncFromCompany n db b else (db, 0)) = (db, 0) := by
    split
    · exact commercialSyncFromCompany_self hb
    · rfl
  simp only [hs1]
  set db2 := if (parentOf db b).isSome && (ptypeOf db b == "contact")
    then updateAddress db [b] (onchangeParent db b) else db with hdb2def
  have hs2 : structMap db2 = structMap db := by
    rw [hdb2def]
    split
    · exact structMap_updateAddress _ _ _
    · rfl
  have hcomm2 : ∀ q, vatOf db2 q = vatOf db q ∧ creditOf db2 q = creditOf db q := by
    intro q
    rw [hdb2def]
    split
    · exact vat_updateAddress _ _ _ q
    · exact ⟨rfl, rfl⟩
  have hkids2 : ∀ pid, childrenOf db2 pid = childrenOf db pid :=
    fun pid => childrenOf_struct hs2 pid
  by_cases hch : childrenOf db2 b = []
  · rw [if_pos hch]
    intro d hd
    exfalso
    have hchdb : childrenOf db b = [] := by rw [← hkids2 b]; exact hch
    rcases reach_succ.mp hd with h | ⟨k, hkm, _⟩
    · rw [hchdb] at h; simp at h
    · rw [hchdb] at hkm; simp at hkm
  · rw [if_neg hch]
    have hb2 : (b == cpOf db2 b) = true := by rw [cpOf_struct hs2]; exact hb
    have hcm2 : anyCommNonzero db2 b = true := by
      unfold anyCommNonzero at hcomm ⊢
      rw [(hcomm2 b).1, (hcomm2 b).2]
      exact hcomm
    have hcond : ((b == cpOf db2 b) && anyCommNonzero db2 b) = true := by
      rw [hb2, hcm2]; rfl
    rw [if_pos hcond]
    have hn2 : NodupIds db2 := (nodupIds_struct hs2).mpr hn
    have hw2 : Wf db2 := (wf_struct hs2).mpr hw
    have ha2 : Acyclic db2 := (acyclic_struct hs2).mpr ha
    have hstc := stc_values n db2 b hn2 hw2 ha2
      (by rw [structMap_length hs2]; omega)
    have hcpb : cpOf db2 b = b := by
      rw [cpOf_struct hs2]
      exact (beq_iff_eq.mp hb).symm
    have hs3 : structMap (commercialSyncToChildren n db2 b).1 = structMap db :=
      ((structMap_sync n).2.2.2 db2 b).trans hs2
    have hn3 : NodupIds (commercialSyncToChildren n db2 b).1 :=
      (nodupIds_struct hs3).mpr hn
    have ha3 : Acyclic (commercialSyncToChildren n db2 b).1 :=
      (acyclic_struct hs3).mpr ha
    have hdead := personChildren_dead hn3 ha3 b
    simp only [hdead, Bool.false_eq_true, if_false]
    have hcomm5 : ∀ q,
        vatOf (if hasAddrKeys vals = true
          then updateAddress (commercialSyncToChildren n db2 b).1
            (contactChildren (commercialSyncToChildren n db2 b).1 b) vals
          else (commercialSyncToChildren n db2 b).1) q
          = vatOf (commercialSyncToChildren n db2 b).1 q ∧
        creditOf (if hasAddrKeys vals = true
          then updateAddress (commercialSyncToChildren n db2 b).1
            (contactChildren (commercialSyncToChildren n db2 b).1 b) vals
          else (commercialSyncToChildren n db2 b).1) q
          = creditOf (commercialSyncToChildren n db2 b).1 q := by
      intro q
      split
      · exact vat_updateAddress _ _ _ q
      · exact ⟨rfl, rfl⟩
    intro d hd
    have hd2 : d ∈ reachOf db2 b := by
      unfold reachOf
      rw [structMap_length hs2, reach_struct hs2]
      exact hd
    have htgt := hstc.2 d hd2
    rw [hcpb] at htgt
    have hbv : vatOf (commercialSyncToChildren n db2 b).1 b = vatOf db2 b ∧
        creditOf (commercialSyncToChildren n db2 b).1 b = creditOf db2 b := by
      rcases hstc.1 b with h | h
      · exact h
      · rw [hcpb] at h; exact h
    constructor
    · rw [(hcomm5 d).1, (hcomm5 b).1, htgt.1, hbv.1]
    · rw [(hcomm5 d).2, (hcomm5 b).2, htgt.2, hbv.2]

theorem fieldsSync_commercial_propagation_witness :
    vatOf (fieldsSync 10 exDB2 1 {}).1 3 = vatOf (fieldsSync 10 exDB2 1 {}).1 1 ∧
    creditOf (fieldsSync 10 exDB2 1 {}).1 3
      = creditOf (fieldsSync 10 exDB2 1 {}).1 1 :=
  fieldsSync_commercial_propagation 10 exDB2 1 {} (by decide) (by decide)
    (by decide) (by decide) (by decide) (by decide) 3 (by decide)

/-! ### Address value lemmas -/

theorem hasAddrKeys_addressData (pp : Partner) :
    hasAddrKeys (addressData pp) = true := rfl

theorem addrOf_updateAddress_full {db : DB} {ids : List Nat} {q : Nat}
    {rec : Partner} (pp : Partner) (hq : q ∈ ids) (hfind : findP db q = some rec) :
    addrOf (updateAddress db ids (addressData pp)) q =
      (pp.street, pp.street2, pp.zip, pp.city, pp.state, pp.country) := by
  unfold updateAddress
  rw [if_pos (hasAddrKeys_addressData pp)]
  unfold addrOf
  rw [findP_writeIds, hfind]
  have hid : rec.id = q := (findP_mem hfind).2
  simp [applyData, addrSubset, addressData, hid, hq]

theorem addrOf_updateAddress_other {db : DB} {ids : List Nat} {q : Nat}
    (v : PartnerData) (hq : ids.contains q = false) :
    findP (updateAddress db ids v) q = findP db q := by
  unfold updateAddress
  split
  · exact findP_writeIds_not_mem hq
  · rfl

/-! ### C3: upstream address pull -/

/-- C3 as stated is false on the code: FieldsSync step 1b (partner.go:510-513)
pulls the parent's full address after the write has been applied, so a
street supplied in the same write is overwritten by the parent's street
rather than kept. -/
theorem fieldsSync_address_pull_counterexample :
    (addrOf (partnerWrite 10 exDB3 [2] { street := some "B" } false).1 2).1
        = "1 Parent Way" ∧
      ¬(addrOf (partnerWrite 10 exDB3 [2] { street := some "B" } false).1 2).1
        = "B" := by
  constructor <;> decide

/-- The heart of the upstream address pull: one synchronization on a contact
whose parent has a non-empty address leaves the contact's six address fields
equal to the parent's (FieldsSync step 1b, OnchangeParent, UpdateAddress;
partner.go:510-513, 350-374, 443-457). -/
theorem fieldsSync_addr_pull_core (m : Nat) (db0 : DB) (cid : Nat)
    (VALS : PartnerData)
    (hn : NodupIds db0) (hw : Wf db0) (ha : Acyclic db0)
    (crec : Partner) (hc : findP db0 cid = some crec)
    (hct : crec.ptype = "contact") (pid : Nat) (hp : crec.parent = some pid)
    (prec : Partner) (hpf : findP db0 pid = some prec)
    (hpa : hasAnyAddress prec = true) :
    addrOf (fieldsSync (m + 1) db0 cid VALS).1 cid
      = addrOf (fieldsSync (m + 1) db0 cid VALS).1 pid := by
  simp only [fieldsSync]
  have hdc : depthD db0 cid = depthD db0 pid + 1 := by
    have := depthD_child hn ha (findP_mem hc).1 hp
    rwa [(findP_mem hc).2] at this
  have hne : (cid == pid) = false := by
    by_cases he : cid = pid
    · rw [he] at hdc; omega
    · simpa using he
  set s1A := if VALS.parent.isSome = true
    then commercialSyncFromCompany m db0 cid else (db0, 0) with hs1def
  have hA1 : structMap s1A.1 = structMap db0 ∧ findP s1A.1 pid = some prec := by
    rw [hs1def]
    split
    · exact ⟨(structMap_sync m).2.2.1 db0 cid,
        (frame_sync m).2.2.1 db0 cid pid prec hn hw ha hpf (by omega)⟩
    · exact ⟨rfl, hpf⟩
  have hpar1 : parentOf s1A.1 cid = some pid := by
    rw [parentOf_struct hA1.1]
    unfold parentOf
    rw [hc]
    exact hp
  have hty1 : ptypeOf s1A.1 cid = "contact" := by
    rw [ptypeOf_struct hA1.1]
    unfold ptypeOf
    rw [hc]
    exact hct
  have hcond1b : ((parentOf s1A.1 cid).isSome
      && (ptypeOf s1A.1 cid == "contact")) = true := by
    rw [hpar1, hty1]; rfl
  rcases findP_struct_cases hA1.1 cid with ⟨h1, h2⟩ | ⟨c1, c0, h1, h2, hsc⟩
  · rw [hc] at h2; exact Option.noConfusion h2
  rw [hc] at h2
  have hc0 : c0 = crec := (Option.some.inj h2).symm
  rw [hc0] at hsc
  have hc1ty : c1.ptype = "contact" := by
    have := congrArg (fun s => s.2.2.2.1) hsc
    simpa using this.trans hct
  have hc1par : c1.parent = some pid := by
    have := congrArg (fun s => s.2.1) hsc
    simpa using this.trans hp
  have honch : onchangeParent s1A.1 cid = addressData prec := by
    unfold onchangeParent
    rw [h1]
    simp [hc1ty, hc1par, hA1.2, hpa]
  rw [if_pos hcond1b, honch]
  have hs2 : structMap (updateAddress s1A.1 [cid] (addressData prec))
      = structMap db0 := (structMap_updateAddress _ _ _).trans hA1.1
  have haddr2c : addrOf (updateAddress s1A.1 [cid] (addressData prec)) cid =
      (prec.street, prec.street2, prec.zip, prec.city, prec.state, prec.country) :=
    addrOf_updateAddress_full prec (by simp) h1
  have hfind2p : findP (updateAddress s1A.1 [cid] (addressData prec)) pid
      = some prec := by
    have hpc : ¬pid = cid := fun he => by rw [he] at hdc; omega
    have hne2 : ([cid] : List Nat).contains pid = false := by simpa using hpc
    rw [addrOf_updateAddress_other _ hne2]
    exact hA1.2
  obtain ⟨c2, hfind2c⟩ : ∃ c2,
      findP (updateAddress s1A.1 [cid] (addressData prec)) cid = some c2 := by
    have := findP_isSome_struct hs2 cid
    rw [hc] at this
    exact Option.isSome_iff_exists.mp (by rw [this]; rfl)
  have hc2addr : (c2.street, c2.street2, c2.zip, c2.city, c2.state, c2.country)
      = (prec.street, prec.street2, prec.zip, prec.city, prec.state, prec.country) := by
    rw [← haddr2c]
    unfold addrOf
    rw [hfind2c]
  set DB2 := updateAddress s1A.1 [cid] (addressData prec) with hDB2def
  have hn2 : NodupIds DB2 := (nodupIds_struct hs2).mpr hn
  have hw2 : Wf DB2 := (wf_struct hs2).mpr hw
  have ha2 : Acyclic DB2 := (acyclic_struct hs2).mpr ha
  by_cases hch : childrenOf DB2 cid = []
  · rw [if_pos hch]
    show addrOf DB2 cid = addrOf DB2 pid
    rw [haddr2c]
    unfold addrOf
    rw [hfind2p]
  · rw [if_neg hch]
    set s3A := if (cid == cpOf DB2 cid) && anyCommNonzero DB2 cid
      then commercialSyncToChildren (m) DB2 cid else (DB2, 0) with hs3def
    have hA3 : structMap s3A.1 = structMap db0 ∧ findP s3A.1 cid = some c2 ∧
        findP s3A.1 pid = some prec := by
      rw [hs3def]
      split
      · refine ⟨((structMap_sync m).2.2.2 DB2 cid).trans hs2, ?_, ?_⟩
        · exact (frame_sync m).2.2.2 DB2 cid cid c2 hn2 hw2 ha2 hfind2c (le_refl _)
        · refine (frame_sync m).2.2.2 DB2 cid pid prec hn2 hw2 ha2 hfind2p ?_
          rw [depthD_struct hs2, depthD_struct hs2]
          omega
      · exact ⟨hs2, hfind2c, hfind2p⟩
    set s4A := if ((childrenOf s3A.1 cid).filter
          (fun c => !(pIsCompany s3A.1 c))).any
          (fun c => !(cpOf s3A.1 c == cpOf s3A.1 cid))
      then commercialSyncToChildren (m) s3A.1 cid else (s3A.1, 0) with hs4def
    have hn3 : NodupIds s3A.1 := (nodupIds_struct hA3.1).mpr hn
    have hw3 : Wf s3A.1 := (wf_struct hA3.1).mpr hw
    have ha3 : Acyclic s3A.1 := (acyclic_struct hA3.1).mpr ha
    have hA4 : structMap s4A.1 = structMap db0 ∧ findP s4A.1 cid = some c2 ∧
        findP s4A.1 pid = some prec := by
      rw [hs4def]
      split
      · refine ⟨((structMap_sync m).2.2.2 s3A.1 cid).trans hA3.1, ?_, ?_⟩
        · exact (frame_sync m).2.2.2 s3A.1 cid cid c2 hn3 hw3 ha3
            hA3.2.1 (le_refl _)
        · refine (frame_sync m).2.2.2 s3A.1 cid pid prec hn3 hw3 ha3 hA3.2.2 ?_
          rw [depthD_struct hA3.1, depthD_struct hA3.1]
          omega
      · exact hA3
    have hfin : findP (if hasAddrKeys VALS = true
        then updateAddress s4A.1 (contactChildren s4A.1 cid) VALS else s4A.1) cid
          = some c2 ∧
        findP (if hasAddrKeys VALS = true
        then updateAddress s4A.1 (contactChildren s4A.1 cid) VALS else s4A.1) pid
          = some prec := by
      split
      · constructor
        · rw [addrOf_updateAddress_other VALS ?_]
          · exact hA4.2.1
          · by_cases hqc : cid ∈ contactChildren s4A.1 cid
            · exfalso
              obtain ⟨rr, hrdb, hrid, hrpar, _, _⟩ := contactChildren_mem hqc
              have hnd4 : NodupIds s4A.1 := (nodupIds_struct hA4.1).mpr hn
              have had4 : Acyclic s4A.1 := (acyclic_struct hA4.1).mpr ha
              have hdcc : depthD s4A.1 cid = depthD s4A.1 cid + 1 := by
                have := depthD_child hnd4 had4 hrdb hrpar
                rwa [hrid] at this
              omega
            · simpa using hqc
        · rw [addrOf_updateAddress_other VALS ?_]
          · exact hA4.2.2
          · by_cases hqc : pid ∈ contactChildren s4A.1 cid
            · exfalso
              obtain ⟨rr, hrdb, hrid, hrpar, _, _⟩ := contactChildren_mem hqc
              have hnd4 : NodupIds s4A.1 := (nodupIds_struct hA4.1).mpr hn
              have had4 : Acyclic s4A.1 := (acyclic_struct hA4.1).mpr ha
              have hdcc : depthD s4A.1 pid = depthD s4A.1 cid + 1 := by
                have := depthD_child hnd4 had4 hrdb hrpar
                rwa [hrid] at this
              rw [depthD_struct hA4.1, depthD_struct hA4.1] at hdcc
              omega
            · simpa using hqc
      · exact ⟨hA4.2.1, hA4.2.2⟩
    show addrOf (if hasAddrKeys VALS = true
        then updateAddress s4A.1 (contactChildren s4A.1 cid) VALS else s4A.1) cid
      = addrOf (if hasAddrKeys VALS = true
        then updateAddress s4A.1 (contactChildren s4A.1 cid) VALS else s4A.1) pid
    unfold addrOf
    rw [hfin.1, hfin.2]
    exact hc2addr

/-- When the parent record has a non-empty address, the first-contact
bootstrap (partner.go:547-572) is a no-op: its `parentAddressDefined` guard
is true, so no branch writes. -/
theorem handleFirsrtContact_noop {db : DB} {cid par : Nat} {prec : Partner}
    (hpar : parentOf db cid = some par) (hpf : findP db par = some prec)
    (hpa : hasAnyAddress prec = true) :
    handleFirsrtContactCreation db cid = db := by
  simp only [handleFirsrtContactCreation, hpar, hpf, hpa]
  split
  next => rfl
  next =>
    split
    next => rfl
    next => simp

/-- C3 amended: for every contact entity c with a parent p that has a
non-empty address field, after a write on c (first conjunct) or a creation
of c (second conjunct) all six of c's address fields equal p's address
fields — the parent's values overwrite any address values supplied in the
same write or creation (FieldsSync step 1b, OnchangeParent, UpdateAddress;
partner.go:510-513, 350-374, 443-457; the Write and Create extensions both
run FieldsSync with the supplied vals, partner.go:621, 659, and the
first-contact bootstrap of Create does not write when the parent has an
address). -/
theorem fieldsSync_address_pull (fuel : Nat) (vals : PartnerData)
    (cid pid : Nat) :
    (∀ (db db0 : DB) (crec prec : Partner), db.length + 4 ≤ fuel →
      db0 = writeIds db [cid]
        (if vals.parent.isSome then { vals with companyName := some "" }
         else vals) →
      NodupIds db0 → Wf db0 → Acyclic db0 →
      findP db0 cid = some crec → crec.ptype = "contact" →
      crec.parent = some pid →
      findP db0 pid = some prec → hasAnyAddress prec = true →
      addrOf (partnerWrite fuel db [cid] vals false).1 cid
        = addrOf (partnerWrite fuel db [cid] vals false).1 pid) ∧
    (∀ (db dbC : DB) (crec prec : Partner), 1 ≤ fuel →
      dbC = db ++ [newPartner cid
        (if vals.parent.isSome then { vals with companyName := some "" }
         else vals)] →
      NodupIds dbC → Wf dbC → Acyclic dbC →
      findP dbC cid = some crec → crec.ptype = "contact" →
      crec.parent = some pid →
      findP dbC pid = some prec → hasAnyAddress prec = true →
      addrOf (partnerCreate fuel db vals cid).1 cid
        = addrOf (partnerCreate fuel db vals cid).1 pid) := by
  constructor
  · intro db db0 crec prec hfuel hdb0 hn hw ha hc hct hp hpf hpa
    obtain ⟨n, rfl⟩ : ∃ n, fuel = n + 1 := ⟨fuel - 1, by omega⟩
    obtain ⟨m, rfl⟩ : ∃ m, n = m + 1 := ⟨n - 1, by omega⟩
    simp only [partnerWrite, Bool.false_eq_true, if_false, foldCount,
      List.foldl_cons, List.foldl_nil]
    rw [← hdb0]
    exact fieldsSync_addr_pull_core m db0 cid _ hn hw ha crec hc hct pid hp
      prec hpf hpa
  · intro db dbC crec prec hfuel hdbC hn hw ha hc hct hp hpf hpa
    obtain ⟨m, rfl⟩ : ∃ m, fuel = m + 1 := ⟨fuel - 1, by omega⟩
    simp only [partnerCreate]
    rw [← hdbC]
    have hcore := fieldsSync_addr_pull_core m dbC cid
      (if vals.parent.isSome then { vals with companyName := some "" }
       else vals) hn hw ha crec hc hct pid hp prec hpf hpa
    set S := (fieldsSync (m + 1) dbC cid
      (if vals.parent.isSome then { vals with companyName := some "" }
       else vals)).1 with hSdef
    have hstruct : structMap S = structMap dbC := by
      rw [hSdef]
      exact (structMap_sync (m + 1)).2.1 dbC cid _
    have hparS : parentOf S cid = some pid := by
      rw [parentOf_struct hstruct]
      unfold parentOf
      rw [hc]
      exact hp
    have hdc : depthD dbC cid = depthD dbC pid + 1 := by
      have := depthD_child hn ha (findP_mem hc).1 hp
      rwa [(findP_mem hc).2] at this
    have hpfS : findP S pid = some prec := by
      rw [hSdef]
      exact (frame_sync (m + 1)).2.1 dbC cid _ pid prec hn hw ha hpf (by omega)
    have hnoop : handleFirsrtContactCreation S cid = S :=
      handleFirsrtContact_noop hparS hpfS hpa
    show addrOf (handleFirsrtContactCreation S cid) cid
      = addrOf (handleFirsrtContactCreation S cid) pid
    rw [hnoop]
    exact hcore

theorem fieldsSync_address_pull_witness :
    (addrOf (partnerWrite 10 exDB3 [2] { street := some "B" } false).1 2
      = addrOf (partnerWrite 10 exDB3 [2] { street := some "B" } false).1 1) ∧
    (addrOf (partnerCreate 10 exDB3c
        { parent := some 1, street := some "C" } 2).1 2
      = addrOf (partnerCreate 10 exDB3c
        { parent := some 1, street := some "C" } 2).1 1) := by
  constructor
  · exact (fieldsSync_address_pull 10 { street := some "B" } 2 1).1 exDB3 _
      { id := 2, parent := some 1, ptype := "contact", name := "Kid",
        street := "B" }
      { id := 1, isCompany := true, name := "P", street := "1 Parent Way",
        city := "Lyon" }
      (by decide) rfl (by decide) (by decide) (by decide) (by decide)
      (by decide) (by decide) (by decide) (by decide)
  · exact (fieldsSync_address_pull 10
        { parent := some 1, street := some "C" } 2 1).2 exDB3c _
      (newPartner 2
        { parent := some 1, companyName := some "", street := some "C" })
      { id := 1, isCompany := true, name := "P", street := "1 Parent Way",
        city := "Lyon" }
      (by decide) rfl (by decide) (by decide) (by decide) (by decide)
      (by decide) (by decide) (by decide) (by decide)

theorem updateAddress_empty (db : DB) (ids : List Nat) :
    updateAddress db ids ({} : PartnerData) = db := rfl

/-- On a childless record whose parent has an empty address, synchronization
leaves the record's own address fields untouched: the only address write is
the step-1b pull, and the parent has nothing to pull. -/
theorem fieldsSync_addr_intact (fuel : Nat) (db0 : DB) (cid : Nat)
    (vals : PartnerData) (hn : NodupIds db0) (hw : Wf db0) (ha : Acyclic db0)
    (crec : Partner) (hc : findP db0 cid = some crec)
    (pid : Nat) (hp : crec.parent = some pid)
    (prec : Partner) (hpf : findP db0 pid = some prec)
    (hnpa : hasAnyAddress prec = false)
    (hch : childrenOf db0 cid = []) :
    ∃ c1, findP (fieldsSync fuel db0 cid vals).1 cid = some c1 ∧
      structOf c1 = structOf crec ∧
      (c1.street, c1.street2, c1.zip, c1.city, c1.state, c1.country)
        = (crec.street, crec.street2, crec.zip, crec.city, crec.state, crec.country) := by
  have hdc : depthD db0 cid = depthD db0 pid + 1 := by
    have := depthD_child hn ha (findP_mem hc).1 hp
    rwa [(findP_mem hc).2] at this
  have hpidne : ¬pid = cid := fun he => by rw [he] at hdc; omega
  cases fuel with
  | zero => exact ⟨crec, hc, rfl, rfl⟩
  | succ m =>
    simp only [fieldsSync]
    -- stage 1a leaves cid's address fields and pid's record untouched
    have hstage1 : ∃ cA,
        findP (if vals.parent.isSome = true
          then commercialSyncFromCompany m db0 cid else (db0, 0)).1 cid = some cA ∧
        structOf cA = structOf crec ∧
        (cA.street, cA.street2, cA.zip, cA.city, cA.state, cA.country)
          = (crec.street, crec.street2, crec.zip, crec.city, crec.state, crec.country) ∧
        findP (if vals.parent.isSome = true
          then commercialSyncFromCompany m db0 cid else (db0, 0)).1 pid = some prec := by
      split
      · cases m with
        | zero => exact ⟨crec, hc, rfl, rfl, hpf⟩
        | succ k =>
          simp only [commercialSyncFromCompany]
          by_cases hbeq0 : (cid == cpOf db0 cid) = true
          · rw [if_pos hbeq0]
            exact ⟨crec, hc, rfl, rfl, hpf⟩
          · rw [if_neg hbeq0]
            cases k with
            | zero => exact ⟨crec, hc, rfl, rfl, hpf⟩
            | succ j =>
              have hcdof := commercialDataOf_vals db0 (cpOf db0 cid)
              simp only [partnerWrite, hcdof.2.2.1, Option.isSome_none,
                Bool.false_eq_true, if_false, foldCount, List.foldl_cons,
                List.foldl_nil]
              have hcid : crec.id = cid := (findP_mem hc).2
              -- the comm write on cid keeps its address and structure
              have hfind1 : findP (writeIds db0 [cid] (commercialDataOf db0
                  (cpOf db0 cid))) cid
                  = some (applyData crec (commercialDataOf db0 (cpOf db0 cid))) := by
                rw [findP_writeIds, hc]
                simp [hcid]
              have hfindp1 : findP (writeIds db0 [cid] (commercialDataOf db0
                  (cpOf db0 cid))) pid = some prec := by
                rw [findP_writeIds_not_mem (by simpa using hpidne)]
                exact hpf
              have hs1 : structMap (writeIds db0 [cid] (commercialDataOf db0
                  (cpOf db0 cid))) = structMap db0 :=
                structMap_writeIds (commercialDataOf_structFree db0 _) db0 [cid]
              have hn1 : NodupIds _ := (nodupIds_struct hs1).mpr hn
              have ha1 : Acyclic _ := (acyclic_struct hs1).mpr ha
              obtain ⟨na1, na2, na3, na4, na5, na6⟩ :=
                commercialDataOf_noAddr db0 (cpOf db0 cid)
              set cA := applyData crec (commercialDataOf db0 (cpOf db0 cid)) with hcA
              have hcAs : structOf cA = structOf crec :=
                structOf_applyData (commercialDataOf_structFree db0 _) crec
              have hcAaddr : (cA.street, cA.street2, cA.zip, cA.city, cA.state,
                  cA.country) = (crec.street, crec.street2, crec.zip, crec.city,
                  crec.state, crec.country) := by
                rw [hcA]
                simp [applyData, na1, na2, na3, na4, na5, na6]
              cases j with
              | zero => exact ⟨cA, hfind1, hcAs, hcAaddr, hfindp1⟩
              | succ i =>
                have hbeq : (cid == cpOf (writeIds db0 [cid] (commercialDataOf db0
                    (cpOf db0 cid))) cid) = false := by
                  rw [cpOf_struct hs1]
                  exact eq_false_of_ne_true hbeq0
                rw [fieldsSync_quiet hn1 ha1 hcdof.2.2.1 hcdof.2.2.2 hbeq]
                have honch0 : onchangeParent (writeIds db0 [cid]
                    (commercialDataOf db0 (cpOf db0 cid))) cid = {} := by
                  unfold onchangeParent
                  rw [hfind1]
                  have hpA : cA.parent = some pid := by
                    have := congrArg (fun s => s.2.1) hcAs
                    simpa using this.trans hp
                  by_cases hty : cA.ptype = "contact"
                  · simp [hty, hpA, hfindp1, hnpa]
                  · simp [hty]
                split
                · rw [honch0, updateAddress_empty]
                  exact ⟨cA, hfind1, hcAs, hcAaddr, hfindp1⟩
                · exact ⟨cA, hfind1, hcAs, hcAaddr, hfindp1⟩
      · exact ⟨crec, hc, rfl, rfl, hpf⟩
    obtain ⟨cA, hfA, hsA, haA, hpA⟩ := hstage1
    -- stage 1b is a no-op: the parent has no address to pull
    have honch : onchangeParent (if vals.parent.isSome = true
        then commercialSyncFromCompany m db0 cid else (db0, 0)).1 cid = {} := by
      unfold onchangeParent
      rw [hfA]
      have hpA' : cA.parent = some pid := by
        have := congrArg (fun s => s.2.1) hsA
        simpa using this.trans hp
      by_cases hty : cA.ptype = "contact"
      · simp [hty, hpA', hpA, hnpa]
      · simp [hty]
    have hupd : (if (parentOf (if vals.parent.isSome = true
          then commercialSyncFromCompany m db0 cid else (db0, 0)).1 cid).isSome &&
          (ptypeOf (if vals.parent.isSome = true
          then commercialSyncFromCompany m db0 cid else (db0, 0)).1 cid
            == "contact")
        then updateAddress (if vals.parent.isSome = true
          then commercialSyncFromCompany m db0 cid else (db0, 0)).1 [cid]
          (onchangeParent (if vals.parent.isSome = true
          then commercialSyncFromCompany m db0 cid else (db0, 0)).1 cid)
        else (if vals.parent.isSome = true
          then commercialSyncFromCompany m db0 cid else (db0, 0)).1)
        = (if vals.parent.isSome = true
          then commercialSyncFromCompany m db0 cid else (db0, 0)).1 := by
      rw [honch, updateAddress_empty]
      exact ite_self _
    rw [hupd]
    have hstructA : structMap (if vals.parent.isSome = true
        then commercialSyncFromCompany m db0 cid else (db0, 0)).1
        = structMap db0 := by
      split
      · exact (structMap_sync m).2.2.1 db0 cid
      · rfl
    have hchA : childrenOf (if vals.parent.isSome = true
        then commercialSyncFromCompany m db0 cid else (db0, 0)).1 cid = [] := by
      rw [childrenOf_struct hstructA]
      exact hch
    rw [if_pos hchA]
    exact ⟨cA, hfA, hsA, haA⟩

theorem hasAnyAddress_congr {p q : Partner}
    (h : (p.street, p.street2, p.zip, p.city, p.state, p.country)
       = (q.street, q.street2, q.zip, q.city, q.state, q.country)) :
    hasAnyAddress p = hasAnyAddress q := by
  have h1 : p.street = q.street := congrArg (fun t => t.1) h
  have h2 : p.street2 = q.street2 := congrArg (fun t => t.2.1) h
  have h3 : p.zip = q.zip := congrArg (fun t => t.2.2.1) h
  have h4 : p.city = q.city := congrArg (fun t => t.2.2.2.1) h
  have h5 : p.state = q.state := congrArg (fun t => t.2.2.2.2.1) h
  have h6 : p.country = q.country := congrArg (fun t => t.2.2.2.2.2) h
  unfold hasAnyAddress
  rw [h1, h2, h3, h4, h5, h6]

theorem childrenOf_mem_of {db : DB} {r : Partner} (hr : r ∈ db)
    (hact : r.active = true) {pid : Nat} (hp : r.parent = some pid) :
    r.id ∈ childrenOf db pid := by
  unfold childrenOf
  refine List.mem_map_of_mem _ (List.mem_filter.mpr ⟨hr, ?_⟩)
  simp [hact, hp]

theorem eq_singleton_of_len_one {l : List Nat} {x : Nat}
    (hlen : l.length = 1) (hx : x ∈ l) : l = [x] := by
  cases l with
  | nil => cases hx
  | cons a t =>
    cases t with
    | nil =>
      have hxa : x = a := by simpa using hx
      rw [← hxa]
    | cons b t2 => simp at hlen

/-! ### C5: first-contact address adoption -/

/-- C5: on creation of an entity c under parent p where p is a company or has
no grandparent, c is p's only (active) child at creation time, c carries an
address and p carries none, c's address is copied up to p
(HandleFirsrtContactCreation partner.go:547-572, Create partner.go:645-661);
when any of these preconditions fails, p's address is unchanged. -/
theorem handleFirsrtContact_bootstrap (fuel : Nat) (db : DB) (vals : PartnerData)
    (newId : Nat) (db0 : DB)
    (hdb0 : db0 = db ++ [newPartner newId
      (if vals.parent.isSome then { vals with companyName := some "" } else vals)])
    (hn : NodupIds db0) (hw : Wf db0) (ha : Acyclic db0)
    (pid : Nat) (crec : Partner) (hcf : findP db0 newId = some crec)
    (hcp : crec.parent = some pid)
    (prec : Partner) (hpf : findP db0 pid = some prec)
    (hchc : childrenOf db0 newId = [])
    (hactive : crec.active = true) :
    (((prec.isCompany = true ∨ prec.parent = none) ∧
       childrenOf db0 pid = [newId] ∧
       hasAnyAddress crec = true ∧ hasAnyAddress prec = false) →
       addrOf (partnerCreate fuel db vals newId).1 pid
         = (crec.street, crec.street2, crec.zip, crec.city, crec.state,
            crec.country)) ∧
    (¬((prec.isCompany = true ∨ prec.parent = none) ∧
       childrenOf db0 pid = [newId] ∧
       hasAnyAddress crec = true ∧ hasAnyAddress prec = false) →
       addrOf (partnerCreate fuel db vals newId).1 pid
         = (prec.street, prec.street2, prec.zip, prec.city, prec.state,
            prec.country)) := by
  simp only [partnerCreate]
  rw [← hdb0]
  have hdc : depthD db0 newId = depthD db0 pid + 1 := by
    have := depthD_child hn ha (findP_mem hcf).1 hcp
    rwa [(findP_mem hcf).2] at this
  -- the synchronization touches neither p nor the hierarchy
  have hs1 : structMap (fieldsSync fuel db0 newId
      (if vals.parent.isSome then { vals with companyName := some "" }
       else vals)).1 = structMap db0 := (structMap_sync fuel).2.1 db0 newId _
  have hfp1 : findP (fieldsSync fuel db0 newId
      (if vals.parent.isSome then { vals with companyName := some "" }
       else vals)).1 pid = some prec :=
    (frame_sync fuel).2.1 db0 newId _ pid prec hn hw ha hpf (by omega)
  obtain ⟨c1, hfc1, hsc1⟩ : ∃ c1, findP (fieldsSync fuel db0 newId
      (if vals.parent.isSome then { vals with companyName := some "" }
       else vals)).1 newId = some c1 ∧ structOf c1 = structOf crec := by
    rcases findP_struct_cases hs1 newId with ⟨h1, h2⟩ | ⟨p1, p2, h1, h2, hsp⟩
    · rw [hcf] at h2; exact Option.noConfusion h2
    · rw [hcf] at h2
      exact ⟨p1, h1, ((Option.some.inj h2) ▸ hsp)⟩
  set db1 := (fieldsSync fuel db0 newId
      (if vals.parent.isSome then { vals with companyName := some "" }
       else vals)).1 with hdb1def
  -- reads of HandleFirsrtContactCreation
  have hre1 : parentOf db1 newId = some pid := by
    unfold parentOf
    rw [hfc1]
    have := congrArg (fun s => s.2.1) hsc1
    simpa using this.trans hcp
  have hre4 : childrenOf db1 pid = childrenOf db0 pid := childrenOf_struct hs1 pid
  have hre2 : pIsCompany db1 pid = prec.isCompany := by
    unfold pIsCompany
    rw [hfp1]
    rfl
  have hre3 : parentOf db1 pid = prec.parent := by
    unfold parentOf
    rw [hfp1]
    rfl
  simp only [handleFirsrtContactCreation, hre1, hre4, hre2, hre3, hfc1, hfp1,
    Option.toList_some]
  constructor
  · rintro ⟨hcompany, hkids, haddr, hnpa⟩
    obtain ⟨c1', hfc1', hsc1', hac1'⟩ := fieldsSync_addr_intact fuel db0 newId _
      hn hw ha crec hcf pid hcp prec hpf hnpa hchc
    have hc1eq : c1' = c1 := by
      rw [← hdb1def] at hfc1'
      exact Option.some.inj (hfc1'.symm.trans hfc1)
    rw [hc1eq] at hac1'
    have hgrd : (!prec.isCompany && prec.parent.isSome) = false := by
      rcases hcompany with h | h
      · rw [h]; rfl
      · rw [h]; simp
    rw [hgrd]
    simp only [Bool.false_eq_true, if_false]
    rw [hkids]
    simp only [List.length_cons, List.length_nil]
    have haddr1 : hasAnyAddress c1 = true :=
      (hasAnyAddress_congr hac1').trans haddr
    rw [haddr1, hnpa]
    simp only [Bool.not_false, Bool.and_true, bne_self_eq_false,
      Bool.false_eq_true, if_false, if_true]
    rw [addrOf_updateAddress_full c1 (by simp) hfp1]
    exact hac1'
  · intro hneg
    -- in every failing case the bootstrap performs no write, so p keeps its
    -- address
    have hfinal : ∀ d : DB, findP d pid = some prec →
        addrOf d pid = (prec.street, prec.street2, prec.zip, prec.city,
          prec.state, prec.country) := by
      intro d hd
      unfold addrOf
      rw [hd]
    by_cases hg : (!prec.isCompany && prec.parent.isSome) = true
    · rw [hg]
      simp only [if_true]
      exact hfinal db1 hfp1
    · rw [eq_false_of_ne_true hg]
      simp only [Bool.false_eq_true, if_false]
      by_cases hlen : (childrenOf db0 pid).length = 1
      · have hmem : newId ∈ childrenOf db0 pid := by
          have := childrenOf_mem_of (findP_mem hcf).1 hactive hcp
          rwa [(findP_mem hcf).2] at this
        have hkids : childrenOf db0 pid = [newId] :=
          eq_singleton_of_len_one hlen hmem
        -- the child list matches, so address conditions must fail
        have hcompany : prec.isCompany = true ∨ prec.parent = none := by
          by_cases hic : prec.isCompany = true
          · exact Or.inl hic
          · right
            cases hpp : prec.parent with
            | none => rfl
            | some gp =>
              exfalso
              apply hg
              rw [eq_false_of_ne_true hic, hpp]
              rfl
        by_cases hnpa : hasAnyAddress prec = false
        · obtain ⟨c1', hfc1', hsc1', hac1'⟩ := fieldsSync_addr_intact fuel db0
            newId _ hn hw ha crec hcf pid hcp prec hpf hnpa hchc
          have hc1eq : c1' = c1 := by
            rw [← hdb1def] at hfc1'
            exact Option.some.inj (hfc1'.symm.trans hfc1)
          rw [hc1eq] at hac1'
          have haddr0 : hasAnyAddress crec = false := by
            by_cases hcr : hasAnyAddress crec = true
            · exact absurd ⟨hcompany, hkids, hcr, hnpa⟩ hneg
            · exact eq_false_of_ne_true hcr
          have haddr1 : hasAnyAddress c1 = false :=
            (hasAnyAddress_congr hac1').trans haddr0
          rw [hkids]
          simp only [List.length_cons, List.length_nil]
          rw [haddr1]
          simp only [Bool.false_and, Bool.false_eq_true, if_false,
            bne_self_eq_false]
          exact hfinal db1 hfp1
        · have hnpa' : hasAnyAddress prec = true := by
            by_cases h : hasAnyAddress prec = true
            · exact h
            · exact absurd (eq_false_of_ne_true h) hnpa
          rw [hkids]
          simp only [List.length_cons, List.length_nil]
          rw [hnpa']
          simp only [Bool.not_true, Bool.and_false, Bool.false_eq_true,
            if_false, bne_self_eq_false]
          exact hfinal db1 hfp1
      · have hlen' : ((childrenOf db0 pid).length != 1) = true := by
          simpa using hlen
        rw [hlen']
        simp only [if_true]
        exact hfinal db1 hfp1

theorem handleFirsrtContact_bootstrap_witness :
    addrOf (partnerCreate 10 exDB5
      { name := some "c1", parent := some 1, street := some "1 Main St" } 2).1 1
      = ("1 Main St", "", "", "", none, none) :=
  (handleFirsrtContact_bootstrap 10 exDB5
    { name := some "c1", parent := some 1, street := some "1 Main St" } 2 _ rfl
    (by decide) (by decide) (by decide) 1
    (newPartner 2
      { name := some "c1", parent := some 1, companyName := some "",
        street := some "1 Main St" })
    (by decide) rfl
    { id := 1, isCompany := true, name := "A" } (by decide) (by decide)
    rfl).1 (by decide)

/-! ### C1, C7, C8: the Commercial Resolver -/

/-- C1: for every entity e, ResolveCommercialPartner (ComputeCommercialPartner,
partner.go:272-281) returns e itself when e.IsCompany is true or e has no
parent, and otherwise returns the resolved commercial partner of e's parent. -/
theorem computeCommercialPartner_rule (db : DB) (hn : NodupIds db)
    (ha : Acyclic db) (p : Partner) (hp : p ∈ db) :
    (p.isCompany = true ∨ p.parent = none → cpOf db p.id = p.id) ∧
    (∀ q, ¬p.isCompany = true → p.parent = some q → cpOf db p.id = cpOf db q) := by
  have hfind := findP_eq_of_mem hn hp
  have hct := acyclic_chainTerm ha hp
  constructor
  · intro hstop
    exact resolveCP_stop hfind hstop
  · intro q hco hpar
    have h1 : cpOf db p.id = resolveCP db db.length q :=
      resolveCP_step_some hfind hco hpar
    have hc' : chainTerm db db.length q = true := by
      rw [chainTerm_step_some hfind hpar] at hct; exact hct
    have h2 : cpOf db q = resolveCP db db.length q :=
      resolveCP_fuel_congr hc' (by omega)
    rw [h1, h2]

theorem computeCommercialPartner_rule_witness :
    cpOf exDB1 2 = cpOf exDB1 1 :=
  (computeCommercialPartner_rule exDB1 (by decide) (by decide) exP2 (by decide)).2
    1 (by decide) rfl

/-- C7: commercial resolution is idempotent,
ResolveCommercialPartner(ResolveCommercialPartner(e)) =
ResolveCommercialPartner(e) (ComputeCommercialPartner, partner.go:272-281). -/
theorem computeCommercialPartner_idempotent (db : DB) (hn : NodupIds db)
    (hw : Wf db) (ha : Acyclic db) (p : Partner) (hp : p ∈ db) :
    cpOf db (cpOf db p.id) = cpOf db p.id := by
  obtain ⟨r, hr, hstop⟩ :=
    cpOf_terminal hw (findP_eq_of_mem hn hp) (acyclic_chainTerm ha hp)
  exact resolveCP_stop hr hstop

theorem computeCommercialPartner_idempotent_witness :
    cpOf exDB1 (cpOf exDB1 3) = cpOf exDB1 3 :=
  computeCommercialPartner_idempotent exDB1 (by decide) (by decide) (by decide)
    { id := 3, parent := some 2, ptype := "invoice", name := "Bill" } (by decide)

/-- C8: in an acyclic, referentially intact store, the resolved commercial
partner of every entity is a record that is a company boundary or has no
parent (ComputeCommercialPartner, partner.go:272-281). -/
theorem computeCommercialPartner_terminal (db : DB) (hn : NodupIds db)
    (hw : Wf db) (ha : Acyclic db) (p : Partner) (hp : p ∈ db) :
    ∃ r, findP db (cpOf db p.id) = some r ∧
      (r.isCompany = true ∨ r.parent = none) :=
  cpOf_terminal hw (findP_eq_of_mem hn hp) (acyclic_chainTerm ha hp)

theorem computeCommercialPartner_terminal_witness :
    ∃ r, findP exDB1 (cpOf exDB1 3) = some r ∧
      (r.isCompany = true ∨ r.parent = none) :=
  computeCommercialPartner_terminal exDB1 (by decide) (by decide) (by decide)
    { id := 3, parent := some 2, ptype := "invoice", name := "Bill" } (by decide)

/-! ### C6: tagging of the synchronizer's internal writes -/

theorem foldCount_acc_le {f : DB → Nat → DB × Nat} :
    ∀ (l : List Nat) (db : DB) (k : Nat),
      k ≤ (l.foldl (fun acc pid =>
        ((f acc.1 pid).1, acc.2 + (f acc.1 pid).2)) (db, k)).2 := by
  intro l
  induction l with
  | nil => intro db k; exact Nat.le_refl k
  | cons p rest ih =>
    intro db k
    simp only [List.foldl_cons]
    exact Nat.le_trans (Nat.le_add_right k _) (ih (f db p).1 _)

theorem one_le_ite_snd {c : Prop} [Decidable c] {a b : DB × Nat}
    (ha : 1 ≤ a.2) (hb : 1 ≤ b.2) : 1 ≤ (if c then a else b).2 := by
  split
  · exact ha
  · exact hb

/-- A synchronization with positive fuel always counts itself. -/
theorem one_le_fieldsSync (fuel : Nat) (db : DB) (pid : Nat)
    (vals : PartnerData) : 1 ≤ (fieldsSync (fuel + 1) db pid vals).2 := by
  simp only [fieldsSync]
  exact one_le_ite_snd (Nat.le_add_left 1 _) (Nat.le_add_left 1 _)

theorem one_le_foldCount_fieldsSync (fuel : Nat) (v : PartnerData)
    (l : List Nat) (db : DB) (h : l ≠ []) :
    1 ≤ (foldCount (fun d p => fieldsSync (fuel + 1) d p v) db l).2 := by
  obtain ⟨a, t, rfl⟩ := List.exists_cons_of_ne_nil h
  simp only [foldCount, List.foldl_cons]
  refine Nat.le_trans ?_
    (foldCount_acc_le (f := fun d p => fieldsSync (fuel + 1) d p v) t _ _)
  exact Nat.le_trans (one_le_fieldsSync _ _ _ _) (Nat.le_add_left _ _)

/-- An untagged Write on a non-empty record set performs at least one
FieldsSync. -/
theorem one_le_partnerWrite (fuel : Nat) (db : DB) (ids : List Nat)
    (vals : PartnerData) (h : ids ≠ []) :
    1 ≤ (partnerWrite (fuel + 2) db ids vals false).2 := by
  simp only [partnerWrite, Bool.false_eq_true, if_false]
  exact one_le_foldCount_fieldsSync fuel _ ids _ h

/-- An external untagged write of a Parent link causes two FieldsSync runs,
not one: the expected top-level one, plus the one re-triggered by the
untagged commercial pull of step 1 inside it. -/
theorem fieldsSync_retrigger_counterexample :
    (partnerWrite 10 exDB6 [2] { parent := some 1 } false).2 = 2 := by decide

/-- C6: the claim says every write issued internally by FieldsSync is tagged
so that it never re-invokes FieldsSync on the written records.  Corrected:
the goto_super-tagged path indeed performs no synchronization (first
conjunct, and the address pulls/pushes of steps 1b/2b go through the tagged
UpdateAddress), but the commercial pull of step 1a and the commercial push of
step 3 are issued through the untagged Write (the push carries
hexya_force_compute_write, not goto_super) and each re-invokes FieldsSync at
least once on the written records (second and third conjuncts). -/
theorem fieldsSync_internal_write_tagging (fuel : Nat) (db : DB)
    (ids : List Nat) (vals : PartnerData) (pid qid : Nat)
    (hcp : (pid == cpOf db pid) = false)
    (hkids : (childrenOf db qid).filter (fun c => !(pIsCompany db c)) ≠ []) :
    (partnerWrite (fuel + 1) db ids vals true).2 = 0 ∧
    1 ≤ (commercialSyncFromCompany (fuel + 3) db pid).2 ∧
    1 ≤ (commercialSyncToChildren (fuel + 3) db qid).2 := by
  refine ⟨?_, ?_, ?_⟩
  · simp [partnerWrite]
  · simp only [commercialSyncFromCompany, hcp, Bool.false_eq_true, if_false]
    exact one_le_partnerWrite _ _ _ _ (List.cons_ne_nil _ _)
  · simp only [commercialSyncToChildren]
    rw [if_neg hkids]
    refine Nat.le_trans ?_ (Nat.le_add_left _ _)
    exact one_le_partnerWrite _ _ _ _ hkids

theorem fieldsSync_internal_write_tagging_witness :
    (partnerWrite 3 exDB1 [2] { vat := some "X" } true).2 = 0 ∧
    1 ≤ (commercialSyncFromCompany 5 exDB1 2).2 ∧
    1 ≤ (commercialSyncToChildren 5 exDB1 1).2 :=
  fieldsSync_internal_write_tagging 2 exDB1 [2] { vat := some "X" } 2 1
    (by decide) (by decide)

/-! ### C10: CompanyName clearing on parent writes -/

theorem findP_append_self (p : Partner) :
    ∀ db : DB, findP db p.id = none → findP (db ++ [p]) p.id = some p := by
  intro db
  induction db with
  | nil =>
    intro _
    show List.find? (fun r => r.id == p.id) [p] = some p
    rw [List.find?_cons]
    simp
  | cons a t ih =>
    intro h
    unfold findP at h ⊢
    rw [List.find?_cons] at h
    rw [List.cons_append, List.find?_cons]
    by_cases ha : (a.id == p.id) = true
    · rw [ha] at h
      exact Option.noConfusion h
    · have ha' : (a.id == p.id) = false := by simpa using ha
      rw [ha'] at h ⊢
      exact ih h

theorem companyNameOf_writeIds (db : DB) {ids : List Nat} {v : PartnerData}
    {i : Nat} (hi : i ∈ ids) (hv : v.companyName = some "") :
    companyNameOf (writeIds db ids v) i = "" := by
  unfold companyNameOf
  rw [findP_writeIds]
  cases hf : findP db i with
  | none => rfl
  | some p =>
    have hid : p.id = i := (findP_mem hf).2
    have hc : ids.contains p.id = true := by rw [hid]; simpa using hi
    simp [hc, applyData, hv, hid, hi]

theorem structMap_handleFirsrtContact (db : DB) (pid : Nat) :
    structMap (handleFirsrtContactCreation db pid) = structMap db := by
  simp only [handleFirsrtContactCreation]
  split
  · rfl
  · split
    · rfl
    · split
      · exact structMap_updateAddress _ _ _
      · rfl

/-- A goto_super-tagged Write skips the CompanyName clearing entirely: a
record written with both a Parent and a free-text CompanyName keeps the
free text. -/
theorem gotoSuper_companyName_counterexample :
    companyNameOf (partnerWrite 5 exDB6 [2]
      { parent := some 1, companyName := some "Free" } true).1 2 = "Free" := by
  decide

/-- C10: the claim says every Write or Create whose value map holds a
non-empty Parent forces CompanyName to the empty string.  Corrected: that
holds for the untagged Write (first conjunct, for every written id) and for
Create (second conjunct), but a goto_super-tagged Write returns through
Super().Write before the clearing and keeps a free-text CompanyName supplied
alongside the Parent. -/
theorem parent_write_clears_companyName (fuel : Nat) (db : DB)
    (ids : List Nat) (vals : PartnerData) (newId : Nat)
    (hp : vals.parent.isSome = true) (hfresh : findP db newId = none) :
    (∀ i, i ∈ ids →
      companyNameOf (partnerWrite (fuel + 1) db ids vals false).1 i = "") ∧
    companyNameOf (partnerCreate fuel db vals newId).1 newId = "" := by
  have hv' : (if vals.parent.isSome
      then { vals with companyName := some "" } else vals)
      = { vals with companyName := some "" } := by rw [hp]; rfl
  constructor
  · intro i hi
    simp only [partnerWrite, Bool.false_eq_true, if_false, hv', foldCount]
    have hbase : companyNameOf
        (writeIds db ids { vals with companyName := some "" }) i = "" :=
      companyNameOf_writeIds db hi rfl
    have hQ := foldCount_inv
      (f := fun d p => fieldsSync fuel d p { vals with companyName := some "" })
      (Q := fun d => structMap d =
        structMap (writeIds db ids { vals with companyName := some "" })) ids
      (fun d p _ hQd => ((structMap_sync fuel).2.1 d p _).trans hQd)
      (writeIds db ids { vals with companyName := some "" }) 0 rfl
    exact (companyNameOf_struct hQ i).trans hbase
  · simp only [partnerCreate, hv']
    have h1 : structMap (handleFirsrtContactCreation
        (fieldsSync fuel
          (db ++ [newPartner newId { vals with companyName := some "" }])
          newId { vals with companyName := some "" }).1 newId)
        = structMap
          (db ++ [newPartner newId { vals with companyName := some "" }]) :=
      (structMap_handleFirsrtContact _ _).trans ((structMap_sync fuel).2.1 _ _ _)
    have hfind : findP
        (db ++ [newPartner newId { vals with companyName := some "" }]) newId
        = some (newPartner newId { vals with companyName := some "" }) :=
      findP_append_self (newPartner newId { vals with companyName := some "" })
        db hfresh
    have hbase : companyNameOf
        (db ++ [newPartner newId { vals with companyName := some "" }]) newId
        = "" := by
      unfold companyNameOf
      rw [hfind]
      rfl
    exact (companyNameOf_struct h1 newId).trans hbase

theorem parent_write_clears_companyName_witness :
    companyNameOf (partnerWrite 6 exDB6 [2]
      { parent := some 1, companyName := some "Free" } false).1 2 = "" ∧
    companyNameOf (partnerCreate 5 exDB6
      { parent := some 1, companyName := some "Free" } 3).1 3 = "" := by
  have h := parent_write_clears_companyName 5 exDB6 [2]
    { parent := some 1, companyName := some "Free" } 3 (by decide) (by decide)
  exact ⟨h.1 2 (by decide), h.2⟩

/-! ### C9: the address formatter and its dead withoutCompany parameter -/

set_option maxRecDepth 100000 in
/-- C9: DisplayAddress does use the country's address format, falling back to
the default multi-line layout when the country provides none (second and
third conjuncts, on a country without and with a format).  But the
withoutCompany parameter is dead code: the body never reads it, so the output
is identical for both flag values on every input (first conjunct), and the
commercial company name is prefixed whenever it is non-empty — the calls with
withoutCompany set still return strings starting with the company name,
where the spec requires it to be omitted. -/
theorem displayAddress_ignores_flag :
    (∀ (db : DB) (cs : List Country) (ss : List CountryState) (pid : Nat),
      displayAddress db cs ss pid true = displayAddress db cs ss pid false) ∧
    displayAddress exDB9 exCountries exStates 2 true
      = "ACME9\n5 High St\n\nParis IDF 75001\nFrance" ∧
    displayAddress exDB9 exCountries exStates 3 true = "ACME9\nXan/Z1" := by
  refine ⟨fun db cs ss pid => rfl, ?_, ?_⟩ <;> decide

/-! ### C4: role coverage of the Address Resolver -/

theorem lookup_cons_eq (k : String) (v : List Nat)
    (es : List (String × List Nat)) : ((k, v) :: es).lookup k = some v := by
  show List.lookup k ((k, v) :: es) = some v
  simp [List.lookup]

theorem lookup_cons_ne {t k : String} (h : (t == k) = false) (v : List Nat)
    (es : List (String × List Nat)) : ((k, v) :: es).lookup t = es.lookup t := by
  show List.lookup t ((k, v) :: es) = List.lookup t es
  simp [List.lookup, h]

theorem lookup_isSome_iff :
    ∀ (l : List (String × List Nat)) (t : String),
      (l.lookup t).isSome = true ↔ t ∈ l.map Prod.fst := by
  intro l
  induction l with
  | nil => intro t; simp [List.lookup]
  | cons a rest ih =>
    intro t
    obtain ⟨k, v⟩ := a
    by_cases h : (t == k) = true
    · have ht : t = k := by simpa using h
      subst ht
      rw [lookup_cons_eq]
      simp
    · have h' : (t == k) = false := by simpa using h
      have hne : t ≠ k := by simpa using h'
      rw [lookup_cons_ne h']
      simp [ih, hne]

theorem lookup_append_left {l1 l2 : List (String × List Nat)} {t : String}
    {v : List Nat} (h : l1.lookup t = some v) : (l1 ++ l2).lookup t = some v := by
  induction l1 with
  | nil =>
    rw [show ([] : List (String × List Nat)).lookup t = none from rfl] at h
    exact Option.noConfusion h
  | cons a rest ih =>
    obtain ⟨k, w⟩ := a
    by_cases hk : (t == k) = true
    · have ht : t = k := by simpa using hk
      subst ht
      rw [lookup_cons_eq] at h
      rw [List.cons_append, lookup_cons_eq]
      exact h
    · have hk' : (t == k) = false := by simpa using hk
      rw [lookup_cons_ne hk'] at h
      rw [List.cons_append, lookup_cons_ne hk']
      exact ih h

theorem lookup_append_right {l1 l2 : List (String × List Nat)} {t : String}
    (h : l1.lookup t = none) : (l1 ++ l2).lookup t = l2.lookup t := by
  induction l1 with
  | nil => rfl
  | cons a rest ih =>
    obtain ⟨k, w⟩ := a
    by_cases hk : (t == k) = true
    · have ht : t = k := by simpa using hk
      subst ht
      rw [lookup_cons_eq] at h
      exact Option.noConfusion h
    · have hk' : (t == k) = false := by simpa using hk
      rw [lookup_cons_ne hk'] at h
      rw [List.cons_append, lookup_cons_ne hk']
      exact ih h

theorem lookup_none_not_mem {l : List (String × List Nat)} {t : String}
    (h : l.lookup t = none) : t ∉ l.map Prod.fst := by
  intro hmem
  have h2 := (lookup_isSome_iff l t).mpr hmem
  rw [h] at h2
  exact Bool.noConfusion h2

/-- One scan step preserves the result-map invariant. -/
theorem agInv_step {addrTypes : List String}
    {result : List (String × List Nat)} (rType : String) (entry : List Nat)
    (hI : agInv addrTypes result) :
    agInv addrTypes
      (if atMember addrTypes rType && (result.lookup rType).isNone
       then result ++ [(rType, entry)] else result) := by
  split
  next hg =>
    rw [Bool.and_eq_true] at hg
    have hmem : atMember addrTypes rType = true := hg.1
    have hnone : result.lookup rType = none :=
      Option.isNone_iff_eq_none.mp hg.2
    constructor
    · rw [List.map_append]
      have hnm : rType ∉ result.map Prod.fst := lookup_none_not_mem hnone
      simp [List.nodup_append, hI.1, hnm]
    · intro kv hkv
      rcases List.mem_append.mp hkv with h | h
      · exact hI.2 kv h
      · rw [List.mem_singleton.mp h]
        exact hmem
  next => exact hI

/-- The breadth-first scan preserves the invariant, and returns the early
flag only with a complete result map. -/
theorem agBFS_inv (db : DB) (addrTypes : List String) :
    ∀ (fuel : Nat) (toScan visited : List Nat)
      (result : List (String × List Nat)), agInv addrTypes result →
      agInv addrTypes (agBFS db addrTypes fuel toScan visited result).2.1 ∧
      ((agBFS db addrTypes fuel toScan visited result).2.2 = true →
        (agBFS db addrTypes fuel toScan visited result).2.1.length
          = atCount addrTypes) := by
  intro fuel
  induction fuel with
  | zero =>
    intro toScan visited result hI
    exact ⟨hI, fun h => Bool.noConfusion h⟩
  | succ n ih =>
    intro toScan visited result hI
    cases toScan with
    | nil => exact ⟨hI, fun h => Bool.noConfusion h⟩
    | cons record rest =>
      set res1 := (if atMember addrTypes (ptypeOf db record) &&
          (result.lookup (ptypeOf db record)).isNone
          then result ++ [(ptypeOf db record, [record])] else result) with hres1
      have hI1 : agInv addrTypes res1 := by
        rw [hres1]
        exact agInv_step (ptypeOf db record) [record] hI
      have hstep : agBFS db addrTypes (n + 1) (record :: rest) visited result
          = if (res1.length == atCount addrTypes) = true
            then (record :: visited, res1, true)
            else agBFS db addrTypes n
              (rest ++ (childrenOf db record).filter
                (fun c => !((record :: visited).contains c) && !(pIsCompany db c)))
              (record :: visited) res1 := rfl
      rw [hstep]
      by_cases hlen : (res1.length == atCount addrTypes) = true
      · rw [if_pos hlen]
        exact ⟨hI1, fun _ => by simpa using hlen⟩
      · rw [if_neg hlen]
        exact ih _ _ _ hI1

/-- The ancestor loop preserves the invariant and the early-flag contract. -/
theorem agClimb_inv (db : DB) (addrTypes : List String) (bfsFuel : Nat) :
    ∀ (fuel current : Nat) (visited : List Nat)
      (result : List (String × List Nat)), agInv addrTypes result →
      agInv addrTypes
        (agClimb db addrTypes bfsFuel fuel current visited result).2.1 ∧
      ((agClimb db addrTypes bfsFuel fuel current visited result).2.2 = true →
        (agClimb db addrTypes bfsFuel fuel current visited result).2.1.length
          = atCount addrTypes) := by
  intro fuel
  induction fuel with
  | zero =>
    intro current visited result hI
    exact ⟨hI, fun h => Bool.noConfusion h⟩
  | succ n ih =>
    intro current visited result hI
    have hB := agBFS_inv db addrTypes bfsFuel [current] visited result hI
    set r1 := agBFS db addrTypes bfsFuel [current] visited result with hr1
    have hstep : agClimb db addrTypes bfsFuel (n + 1) current visited result
        = if r1.2.2 = true then r1
          else if (pIsCompany db current || (parentOf db current).isNone) = true
            then (r1.1, r1.2.1, false)
            else match parentOf db current with
              | none => (r1.1, r1.2.1, false)
              | some par => agClimb db addrTypes bfsFuel n par r1.1 r1.2.1 := rfl
    rw [hstep]
    by_cases hflag : r1.2.2 = true
    · rw [if_pos hflag]
      exact ⟨hB.1, fun _ => hB.2 hflag⟩
    · rw [if_neg hflag]
      by_cases hcomp : (pIsCompany db current || (parentOf db current).isNone) = true
      · rw [if_pos hcomp]
        exact ⟨hB.1, fun h => Bool.noConfusion h⟩
      · rw [if_neg hcomp]
        cases hpar : parentOf db current with
        | none => exact ⟨hB.1, fun h => Bool.noConfusion h⟩
        | some par => exact ih par r1.1 r1.2.1 hB.1

/-- The seed loop preserves the invariant and the early-flag contract. -/
theorem agSeeds_inv (db : DB) (addrTypes : List String)
    (bfsFuel climbFuel : Nat) :
    ∀ (seeds visited : List Nat) (result : List (String × List Nat)),
      agInv addrTypes result →
      agInv addrTypes
        (agSeeds db addrTypes bfsFuel climbFuel seeds visited result).1 ∧
      ((agSeeds db addrTypes bfsFuel climbFuel seeds visited result).2 = true →
        (agSeeds db addrTypes bfsFuel climbFuel seeds visited result).1.length
          = atCount addrTypes) := by
  intro seeds
  induction seeds with
  | nil =>
    intro visited result hI
    exact ⟨hI, fun h => Bool.noConfusion h⟩
  | cons s rest ih =>
    intro visited result hI
    have hC := agClimb_inv db addrTypes bfsFuel climbFuel s visited result hI
    set r1 := agClimb db addrTypes bfsFuel climbFuel s visited result with hr1
    have hstep : agSeeds db addrTypes bfsFuel climbFuel (s :: rest) visited result
        = if r1.2.2 = true then (r1.2.1, true)
          else agSeeds db addrTypes bfsFuel climbFuel rest r1.1 r1.2.1 := rfl
    rw [hstep]
    by_cases hflag : r1.2.2 = true
    · rw [if_pos hflag]
      exact ⟨hC.1, fun _ => hC.2 hflag⟩
    · rw [if_neg hflag]
      exact ih _ _ hC.1

theorem mem_dedup_of_atMember {addrTypes : List String} {t : String}
    (h : atMember addrTypes t = true) : t ∈ ("contact" :: addrTypes).dedup := by
  rw [List.mem_dedup]
  simp only [atMember, Bool.or_eq_true] at h
  rcases h with h1 | h1
  · exact List.mem_cons_of_mem _ (by simpa using h1)
  · have ht : t = "contact" := by simpa using h1
    rw [ht]
    exact List.mem_cons_self _ _

/-- A complete invariant-respecting result map covers every member role:
distinct keys drawn from the role set, as many as the role set has. -/
theorem agInv_complete {addrTypes : List String}
    {result : List (String × List Nat)} (hI : agInv addrTypes result)
    (hlen : result.length = atCount addrTypes) {t : String}
    (ht : atMember addrTypes t = true) : (result.lookup t).isSome = true := by
  have hsub : (result.map Prod.fst).toFinset
      ⊆ (("contact" :: addrTypes).dedup).toFinset := by
    intro x hx
    rw [List.mem_toFinset] at hx ⊢
    rcases List.mem_map.mp hx with ⟨kv, hkv, rfl⟩
    exact mem_dedup_of_atMember (hI.2 kv hkv)
  have hcard : (("contact" :: addrTypes).dedup).toFinset.card
      ≤ (result.map Prod.fst).toFinset.card := by
    rw [List.toFinset_card_of_nodup hI.1,
      List.toFinset_card_of_nodup (List.nodup_dedup _), List.length_map, hlen]
    exact Nat.le_refl _
  have heq := Finset.eq_of_subset_of_card_le hsub hcard
  have htin : t ∈ result.map Prod.fst := by
    have h1 : t ∈ (("contact" :: addrTypes).dedup).toFinset :=
      List.mem_toFinset.mpr (mem_dedup_of_atMember ht)
    rw [← heq] at h1
    exact List.mem_toFinset.mp h1
  exact (lookup_isSome_iff _ _).mpr htin

/-- Entries survive the defaulting loop. -/
theorem fold_default_pres (dflt : List Nat) :
    ∀ (l : List String) (res : List (String × List Nat)) (t : String)
      (v : List Nat), res.lookup t = some v →
      ((l.foldl (fun acc u =>
          if (acc.lookup u).isNone then acc ++ [(u, dflt)] else acc)
        res).lookup t) = some v := by
  intro l
  induction l with
  | nil => intro res t v h; exact h
  | cons a rest ih =>
    intro res t v h
    simp only [List.foldl_cons]
    apply ih
    split
    · exact lookup_append_left h
    · exact h

/-- The defaulting loop fills every still-missing requested role with the
default set. -/
theorem fold_default_covers (dflt : List Nat) :
    ∀ (l : List String) (res : List (String × List Nat)) (t : String),
      res.lookup t = none → t ∈ l →
      ((l.foldl (fun acc u =>
          if (acc.lookup u).isNone then acc ++ [(u, dflt)] else acc)
        res).lookup t) = some dflt := by
  intro l
  induction l with
  | nil => intro res t h hmem; exact absurd hmem (List.not_mem_nil t)
  | cons a rest ih =>
    intro res t h hmem
    simp only [List.foldl_cons]
    by_cases hat : t = a
    · subst hat
      rw [if_pos (by rw [h]; rfl)]
      refine fold_default_pres dflt rest _ t dflt ?_
      rw [lookup_append_right h]
      exact lookup_cons_eq t dflt []
    · have hne : (t == a) = false := by simpa using hat
      have h1 : (if (res.lookup a).isNone then res ++ [(a, dflt)]
          else res).lookup t = none := by
        split
        · rw [lookup_append_right h, lookup_cons_ne hne]
          rfl
        · exact h
      have hmem2 : t ∈ rest := by
        rcases List.mem_cons.mp hmem with h2 | h2
        · exact absurd h2 hat
        · exact h2
      exact ih _ t h1 hmem2

/-- AddressGet on a store whose only record has type "other", requesting only
"invoice": no typed match exists, the defaulting loop fills only the
requested role, and the returned map carries no "contact" entry at all. -/
theorem addressGet_contact_missing_counterexample :
    (addressGet exDB4 [7] ["invoice"]).lookup "contact" = none ∧
    (addressGet exDB4 [7] ["invoice"]).lookup "invoice" = some [7] := by
  decide

/-- C4: the claim says the returned map has an entry for every role of
requestedRoles ∪ \x7b"contact"\x7d.  Corrected: every requested role always
has an entry (first conjunct); when the traversal did not end early, a
requested role the traversal left unmatched defaults to the "contact" match
when one was found and to the seed set otherwise (second conjunct); and on
the early-return path every member role, "contact" included, has a typed
entry (third conjunct).  But the defaulting loop runs over the requested
roles only, so when "contact" is neither requested nor matched the returned
map has no "contact" key. -/
theorem addressGet_role_coverage (db : DB) (seeds : List Nat)
    (addrTypes : List String) (t : String) (ht : t ∈ addrTypes) :
    ((addressGet db seeds addrTypes).lookup t).isSome = true ∧
    ((agSeeds db addrTypes ((db.length + 1) * (db.length + 1) + 1)
        (db.length + 1) seeds [] []).2 = false →
      (agSeeds db addrTypes ((db.length + 1) * (db.length + 1) + 1)
        (db.length + 1) seeds [] []).1.lookup t = none →
      (addressGet db seeds addrTypes).lookup t = some
        (((agSeeds db addrTypes ((db.length + 1) * (db.length + 1) + 1)
          (db.length + 1) seeds [] []).1.lookup "contact").getD seeds)) ∧
    ((agSeeds db addrTypes ((db.length + 1) * (db.length + 1) + 1)
        (db.length + 1) seeds [] []).2 = true →
      ((addressGet db seeds addrTypes).lookup "contact").isSome = true) := by
  have hS := agSeeds_inv db addrTypes ((db.length + 1) * (db.length + 1) + 1)
    (db.length + 1) seeds [] []
    ⟨List.nodup_nil, fun kv hkv => absurd hkv (List.not_mem_nil kv)⟩
  have hmem : atMember addrTypes t = true := by
    simp only [atMember, Bool.or_eq_true]
    exact Or.inl (by simpa using ht)
  refine ⟨?_, ?_, ?_⟩
  · cases hflag : (agSeeds db addrTypes ((db.length + 1) * (db.length + 1) + 1)
        (db.length + 1) seeds [] []).2 with
    | true =>
      simp only [addressGet]
      rw [if_pos hflag]
      exact agInv_complete hS.1 (hS.2 hflag) hmem
    | false =>
      simp only [addressGet]
      rw [hflag]
      simp only [Bool.false_eq_true, if_false]
      cases hlook : (agSeeds db addrTypes ((db.length + 1) * (db.length + 1) + 1)
          (db.length + 1) seeds [] []).1.lookup t with
      | some v =>
        rw [fold_default_pres _ addrTypes _ t v hlook]
        rfl
      | none =>
        rw [fold_default_covers _ addrTypes _ t hlook ht]
        rfl
  · intro hflag hnone
    simp only [addressGet]
    rw [hflag]
    simp only [Bool.false_eq_true, if_false]
    cases hct : (agSeeds db addrTypes ((db.length + 1) * (db.length + 1) + 1)
        (db.length + 1) seeds [] []).1.lookup "contact" with
    | some ct => exact fold_default_covers ct addrTypes _ t hnone ht
    | none => exact fold_default_covers seeds addrTypes _ t hnone ht
  · intro hflag
    simp only [addressGet]
    rw [if_pos hflag]
    exact agInv_complete hS.1 (hS.2 hflag) (by simp [atMember])

theorem addressGet_role_coverage_witness :
    ((addressGet exDB4 [7] ["invoice"]).lookup "invoice").isSome = true :=
  (addressGet_role_coverage exDB4 [7] ["invoice"] "invoice" (by decide)).1

end HexyaBase
